import Mathlib

/-!
Verification of the Launchpad selection & generation pipeline
(`internal/ai`: `engine.go`, `catalog.go`, `openai.go`).

Go strings are modelled as `List Char`; Go maps keyed by strings are
modelled as association lists looked up with `find?` (the registry keys
are pairwise distinct, so first-match lookup agrees with map lookup).
Go's `float64` confidence is modelled as `ℚ`.
-/

namespace Launchpad

/-- Characters of a string literal; Go string literals in the embedded code
are written through this shorthand. -/
def chars (s : String) : List Char := s.data

/-- Model of Go `strings.HasPrefix`. -/
def startsWith (pre s : List Char) : Bool := pre.isPrefixOf s

/-- Model of Go `strings.TrimPrefix`: drops `pre` from the front of `s`
when present, otherwise returns `s` unchanged. -/
def trimPrefixL (pre s : List Char) : List Char :=
  if pre.isPrefixOf s then s.drop pre.length else s

/-- Model of Go `strings.TrimSuffix`. -/
def trimSuffixL (suf s : List Char) : List Char :=
  if suf.isSuffixOf s then s.take (s.length - suf.length) else s

/-- Model of Go `strings.TrimSpace`: drops whitespace from both ends. -/
def trimChars (s : List Char) : List Char :=
  (((s.dropWhile Char.isWhitespace).reverse).dropWhile Char.isWhitespace).reverse

/-- Model of Go `strings.Index`: position of the first occurrence of `pat`
inside `text`, `none` when there is none (Go returns `-1`). -/
def indexOfSub (pat : List Char) : List Char → Option Nat
  | [] => if pat.isPrefixOf ([] : List Char) then some 0 else none
  | c :: rest =>
    if pat.isPrefixOf (c :: rest) then some 0
    else (indexOfSub pat rest).map (· + 1)

/-- Model of Go `strings.Contains`. -/
def containsSub (pat text : List Char) : Bool := (indexOfSub pat text).isSome

/-- Generic single-pass walk shared by the Go loops of this package: keep the
entries satisfying `keep` that have not been seen yet, marking each kept entry
as seen (first occurrence wins, order preserved). -/
def walkFilter (keep : List Char → Bool) :
    List (List Char) → List (List Char) → List (List Char)
  | [], _ => []
  | x :: xs, seen =>
    if keep x && !seen.contains x then x :: walkFilter keep xs (x :: seen)
    else walkFilter keep xs seen

/-- Specification-side deduplication: keep the first occurrence of every
entry, in order (later occurrences are erased). -/
def dedupKeepFirst : List (List Char) → List (List Char)
  | [] => []
  | x :: xs => x :: (dedupKeepFirst xs).filter (fun y => !(y == x))

/-! Basic lemmas about the walk and the deduplication. -/

theorem walkFilter_cons (keep : List Char → Bool) (x : List Char)
    (xs seen : List (List Char)) :
    walkFilter keep (x :: xs) seen
      = if keep x && !seen.contains x then x :: walkFilter keep xs (x :: seen)
        else walkFilter keep xs seen := rfl

theorem dedupKeepFirst_filter (p : List Char → Bool) (l : List (List Char)) :
    dedupKeepFirst (l.filter p) = (dedupKeepFirst l).filter p := by
  induction l with
  | nil => rfl
  | cons x xs ih =>
    cases hx : p x
    · have hxn : ¬ p x = true := by simp [hx]
      rw [List.filter_cons_of_neg hxn, ih]
      simp only [dedupKeepFirst, List.filter_cons_of_neg hxn,
        List.filter_filter]
      refine List.filter_congr (fun a _ => ?_)
      by_cases hax : (a == x) = true
      · have ha : a = x := by simpa using hax
        simp [ha, hx]
      · simp [hax]
    · rw [List.filter_cons_of_pos hx]
      simp only [dedupKeepFirst, ih, List.filter_cons_of_pos hx,
        List.filter_filter, List.cons.injEq, true_and]
      exact List.filter_congr (fun a _ => Bool.and_comm _ _)

theorem mem_dedupKeepFirst {z : List Char} {l : List (List Char)} :
    z ∈ dedupKeepFirst l → z ∈ l := by
  induction l with
  | nil => simp [dedupKeepFirst]
  | cons x xs ih =>
    intro hz
    rcases List.mem_cons.mp hz with h | h
    · simp [h]
    · exact List.mem_cons_of_mem _ (ih (List.mem_filter.mp h).1)

theorem dedupKeepFirst_nodup (l : List (List Char)) :
    (dedupKeepFirst l).Nodup := by
  induction l with
  | nil => simp [dedupKeepFirst]
  | cons x xs ih =>
    simp only [dedupKeepFirst, List.nodup_cons]
    refine ⟨fun hx => ?_, ih.filter _⟩
    have := (List.mem_filter.mp hx).2
    simp at this

/-- The accumulator walk equals: filter by `keep`, drop what was already
seen, then deduplicate keeping first occurrences. -/
theorem walkFilter_eq (keep : List Char → Bool) (l seen : List (List Char)) :
    walkFilter keep l seen
      = dedupKeepFirst ((l.filter keep).filter (fun x => !seen.contains x)) := by
  induction l generalizing seen with
  | nil => rfl
  | cons x xs ih =>
    cases hk : keep x
    · rw [walkFilter_cons, hk]
      rw [if_neg (by simp)]
      rw [List.filter_cons_of_neg (show ¬ keep x = true by simp [hk])]
      exact ih seen
    · cases hs : seen.contains x
      · rw [walkFilter_cons, hk, hs]
        rw [if_pos (by decide)]
        rw [List.filter_cons_of_pos hk,
          List.filter_cons_of_pos (p := fun y => !seen.contains y)
            (by show (!seen.contains x) = true; rw [hs]; decide),
          ih (x :: seen)]
        simp only [dedupKeepFirst, List.cons.injEq, true_and]
        rw [← dedupKeepFirst_filter]
        refine congrArg dedupKeepFirst ?_
        simp only [List.filter_filter]
        refine List.filter_congr (fun a _ => ?_)
        simp only [List.contains_cons, Bool.not_or, Bool.and_assoc]
      · rw [walkFilter_cons, hk, hs]
        rw [if_neg (by decide)]
        rw [List.filter_cons_of_pos hk,
          List.filter_cons_of_neg (p := fun y => !seen.contains y)
            (by show ¬ (!seen.contains x) = true; rw [hs]; decide)]
        exact ih seen

/-!
Data model and catalog registry, embedded from `internal/ai/catalog.go` and
`internal/ai/engine.go`. Each entry of Go `catalog()` is named individually
and the list assembles them in source order.
-/

structure ContextAsset where
  ID : List Char
  Category : List Char
  Label : List Char
  Summary : List Char
  TemplatePath : List Char
  deriving DecidableEq

def catCoreCopilot : ContextAsset :=
  ⟨ chars "core.copilot", chars "core", chars "Core Copilot Standards",
    chars "Always-on engineering standards for architecture, naming, and implementation quality",
    chars "core/.github/copilot-instructions.md" ⟩

def catCoreArchitecture : ContextAsset :=
  ⟨ chars "core.architecture", chars "practices", chars "Architecture Practices",
    chars "Functional-first decomposition, pure core / imperative edge boundaries, and layered composition",
    chars "core/.github/instructions/architecture.instructions.md" ⟩

def catCoreAgents : ContextAsset :=
  ⟨ chars "core.agents", chars "collaboration", chars "Agent Collaboration Rules",
    chars "Ground rules for multi-agent workflow, ownership boundaries, and quality checks",
    chars "core/AGENTS.md" ⟩

def catCoreDesignSystem : ContextAsset :=
  ⟨ chars "core.design-system", chars "design", chars "Design System Baseline",
    chars "Dark-first visual identity, typography, spacing, and component DNA — the visual foundation that all generated apps share",
    chars "core/.github/instructions/design-system.instructions.md" ⟩

def catProfileElixirPhoenix : ContextAsset :=
  ⟨ chars "profile.elixir-phoenix", chars "framework", chars "Elixir + Phoenix",
    chars "Full-stack real-time web — LiveView, Ecto, OTP. Best AI context: entire app in one framework",
    chars "profiles/elixir-phoenix/.github/instructions/elixir-phoenix.instructions.md" ⟩

def catProfileTypescriptSveltekit : ContextAsset :=
  ⟨ chars "profile.typescript-sveltekit", chars "framework", chars "TypeScript + SvelteKit",
    chars "Full-stack JS web — intuitive reactivity, SSR, minimal boilerplate. Best JS framework for AI",
    chars "profiles/typescript-sveltekit/.github/instructions/typescript-sveltekit.instructions.md" ⟩

def catProfileRubyRails : ContextAsset :=
  ⟨ chars "profile.ruby-rails", chars "framework", chars "Ruby on Rails",
    chars "Rapid full-stack web — generators, convention over configuration, fast to production",
    chars "profiles/ruby-rails/.github/instructions/ruby-rails.instructions.md" ⟩

def catProfileTypescriptNextjs : ContextAsset :=
  ⟨ chars "profile.typescript-nextjs", chars "framework", chars "TypeScript + Next.js",
    chars "React ecosystem full-stack — App Router, RSC, Vercel-optimized",
    chars "profiles/typescript-nextjs/.github/instructions/typescript-nextjs.instructions.md" ⟩

def catProfileTypescriptFastify : ContextAsset :=
  ⟨ chars "profile.typescript-fastify", chars "framework", chars "TypeScript + Fastify",
    chars "Node.js API service — schema-driven routes, typed contracts, plugin architecture",
    chars "profiles/typescript-fastify/.github/instructions/typescript-fastify.instructions.md" ⟩

def catProfileGoService : ContextAsset :=
  ⟨ chars "profile.go-service", chars "framework", chars "Go Service",
    chars "Idiomatic Go service architecture with stdlib-first bias and explicit boundaries",
    chars "profiles/go-service/.github/instructions/go-service.instructions.md" ⟩

def catProfileDotnetApi : ContextAsset :=
  ⟨ chars "profile.dotnet-api", chars "framework", chars ".NET API",
    chars "C# API architecture with clear boundaries and maintainable service design",
    chars "profiles/dotnet-api/.github/instructions/dotnet-api.instructions.md" ⟩

def catProfilePythonFastapi : ContextAsset :=
  ⟨ chars "profile.python-fastapi", chars "framework", chars "Python + FastAPI",
    chars "Async Python APIs with Pydantic types, ideal for ML/data service backends",
    chars "profiles/python-fastapi/.github/instructions/python-fastapi.instructions.md" ⟩

def catProfilePythonDjango : ContextAsset :=
  ⟨ chars "profile.python-django", chars "framework", chars "Python + Django",
    chars "Batteries-included Python web — admin, ORM, auth, content management",
    chars "profiles/python-django/.github/instructions/python-django.instructions.md" ⟩

def catProfileDartFlutter : ContextAsset :=
  ⟨ chars "profile.dart-flutter", chars "framework", chars "Dart + Flutter",
    chars "Cross-platform native apps — single codebase, widget composition, platform channels",
    chars "profiles/dart-flutter/.github/instructions/dart-flutter.instructions.md" ⟩

def catProfileRustAxum : ContextAsset :=
  ⟨ chars "profile.rust-axum", chars "framework", chars "Rust + Axum",
    chars "Performance-critical services — Tokio-based, type-safe, zero-cost abstractions",
    chars "profiles/rust-axum/.github/instructions/rust-axum.instructions.md" ⟩

def catProfileLaravel : ContextAsset :=
  ⟨ chars "profile.laravel", chars "framework", chars "Laravel",
    chars "Laravel + Inertia project conventions for product-focused web apps",
    chars "profiles/laravel/.github/instructions/laravel.instructions.md" ⟩

def catAddonDataIntensive : ContextAsset :=
  ⟨ chars "addon.data-intensive", chars "architecture", chars "Data-Intensive Add-on",
    chars "Patterns for event streams, durable storage, and resilient data processing",
    chars "addons/data-intensive/.github/instructions/data-intensive.instructions.md" ⟩

def catAddonFrontendCraft : ContextAsset :=
  ⟨ chars "addon.frontend-craft", chars "ui", chars "Frontend Craft Add-on",
    chars "Framework-agnostic visual discipline, component composition, accessibility, motion, and styling system guidance",
    chars "addons/frontend-craft/.github/instructions/frontend-craft.instructions.md" ⟩

def catAssetPaletteHerouiBlue : ContextAsset :=
  ⟨ chars "asset.palette.heroui-blue", chars "palette", chars "HeroUI Blue Scale Palette",
    chars "Blue-centered semantic scale inspired by your attached `colors.ts` palette structure",
    chars "assets/palettes/heroui-blue.instructions.md" ⟩

def catAssetPaletteObsidianIndigo : ContextAsset :=
  ⟨ chars "asset.palette.obsidian-indigo", chars "palette", chars "Obsidian + Indigo Palette",
    chars "Dark Phoenix-style UI palette inspired by your attached LiveView layout styling",
    chars "assets/palettes/obsidian-indigo.instructions.md" ⟩

def catAssetFontsInterJetbrains : ContextAsset :=
  ⟨ chars "asset.fonts.inter-jetbrains", chars "fonts", chars "Inter + JetBrains Mono",
    chars "Sans + monospace pairing for product UI and dev-facing surfaces",
    chars "assets/fonts/inter-jetbrains.instructions.md" ⟩

def catAssetLintStrict : ContextAsset :=
  ⟨ chars "asset.lint.strict", chars "linting", chars "Strict Linting",
    chars "Fail-on-warning lint posture and formatting consistency expectations",
    chars "assets/linting/strict.instructions.md" ⟩

def catAssetTestingPragmatic : ContextAsset :=
  ⟨ chars "asset.testing.pragmatic", chars "testing", chars "Pragmatic Testing",
    chars "Fast feedback testing pyramid with contract and integration confidence",
    chars "assets/testing/pragmatic.instructions.md" ⟩

def catalog : List ContextAsset :=
  [ catCoreCopilot, catCoreArchitecture, catCoreAgents, catCoreDesignSystem, catProfileElixirPhoenix, catProfileTypescriptSveltekit, catProfileRubyRails, catProfileTypescriptNextjs, catProfileTypescriptFastify, catProfileGoService, catProfileDotnetApi, catProfilePythonFastapi, catProfilePythonDjango, catProfileDartFlutter, catProfileRustAxum, catProfileLaravel, catAddonDataIntensive, catAddonFrontendCraft, catAssetPaletteHerouiBlue, catAssetPaletteObsidianIndigo, catAssetFontsInterJetbrains, catAssetLintStrict, catAssetTestingPragmatic ]

/-- Model of the lookup `catalogMap()[id]`: catalog IDs are pairwise
distinct, so first-match search agrees with Go map indexing. -/
def catalogFind (id : List Char) : Option ContextAsset :=
  catalog.find? (fun a => a.ID == id)

/-- Selection is the decision artifact extracted from the backend
(`engine.go`). Confidence (`float64`) is modelled as a rational. -/
structure Selection where
  ProfileID : List Char
  AddonIDs : List (List Char)
  AssetIDs : List (List Char)
  Confidence : ℚ
  Rationale : List Char
  deriving DecidableEq

/-- Prefix an ID with a namespace unless it already carries it, as in
`resolveContextAssets` (`catalog.go`). -/
def prefixed (pre id : List Char) : List Char :=
  if startsWith pre id then id else pre ++ id

/-- Base IDs every resolution starts from (`catalog.go`, `base`). -/
def baseContextIDs : List (List Char) :=
  [chars "core.copilot", chars "core.architecture", chars "core.agents",
   chars "core.design-system"]

/-- Combined ID list built by `resolveContextAssets` before the walk:
base IDs, the prefixed profile (only when non-empty), the prefixed addons,
then the asset IDs verbatim. -/
def combinedIDs (sel : Selection) : List (List Char) :=
  baseContextIDs
    ++ (if sel.ProfileID = [] then []
        else [prefixed (chars "profile.") sel.ProfileID])
    ++ sel.AddonIDs.map (prefixed (chars "addon."))
    ++ sel.AssetIDs

/-- Resolution walk of `resolveContextAssets`: skip blank and already seen
IDs, look every surviving ID up in the catalog, and fail on the first
unknown one. The Go error is `unknown context asset %q`; the error value
here is the offending ID itself. -/
def resolveLoop : List (List Char) → List (List Char) →
    Except (List Char) (List ContextAsset)
  | [], _ => .ok []
  | id :: rest, seen =>
    if id.isEmpty || seen.contains id then resolveLoop rest seen
    else
      match catalogFind id with
      | none => .error id
      | some a =>
        match resolveLoop rest (id :: seen) with
        | .ok out => .ok (a :: out)
        | .error e => .error e

/-- Model of `resolveContextAssets` (`catalog.go`). -/
def resolveContextAssets (sel : Selection) :
    Except (List Char) (List ContextAsset) :=
  resolveLoop (combinedIDs sel) []

/-!
Specification-side resolver, phrased after the spec text: deduplicate the
non-blank entries of the ID sequence keeping first occurrences, then map
every surviving ID to its catalog entry, failing on the first unknown ID.
-/

def lookupAll : List (List Char) → Except (List Char) (List ContextAsset)
  | [] => .ok []
  | id :: rest =>
    match catalogFind id with
    | none => .error id
    | some a =>
      match lookupAll rest with
      | .ok out => .ok (a :: out)
      | .error e => .error e

/-- Ordered, deduplicated view of an ID sequence, as the spec words it. -/
def specOrderedIDs (ids : List (List Char)) : List (List Char) :=
  dedupKeepFirst (ids.filter (fun id => !id.isEmpty))

/-- ID sequence exactly as claim C2/C3 word it: the profile-prefixed
ProfileID appears unconditionally. -/
def claimedIDSequence (sel : Selection) : List (List Char) :=
  baseContextIDs
    ++ [prefixed (chars "profile.") sel.ProfileID]
    ++ sel.AddonIDs.map (prefixed (chars "addon."))
    ++ sel.AssetIDs

/-- Resolver following the claim text verbatim. -/
def specResolveClaimed (sel : Selection) :
    Except (List Char) (List ContextAsset) :=
  lookupAll (specOrderedIDs (claimedIDSequence sel))

/-- Resolver following the claim text amended: the profile-prefixed
ProfileID is part of the sequence only when ProfileID is non-empty. -/
def specResolveAmended (sel : Selection) :
    Except (List Char) (List ContextAsset) :=
  lookupAll (specOrderedIDs (combinedIDs sel))

/-! Bridging lemmas between the Go-shaped walk and the spec-shaped one. -/

theorem resolveLoop_cons (id : List Char) (rest seen : List (List Char)) :
    resolveLoop (id :: rest) seen
      = if id.isEmpty || seen.contains id then resolveLoop rest seen
        else
          match catalogFind id with
          | none => .error id
          | some a =>
            match resolveLoop rest (id :: seen) with
            | .ok out => .ok (a :: out)
            | .error e => .error e := rfl

theorem resolveLoop_eq_lookupAll (ids seen : List (List Char)) :
    resolveLoop ids seen
      = lookupAll (walkFilter (fun id => !id.isEmpty) ids seen) := by
  induction ids generalizing seen with
  | nil => rfl
  | cons id rest ih =>
    rw [resolveLoop_cons, walkFilter_cons]
    cases hid : id.isEmpty
    · cases hseen : seen.contains id
      · rw [if_neg (by simp [hid, hseen]), if_pos (by simp [hid, hseen])]
        simp only [lookupAll]
        rw [ih (id :: seen)]
      · rw [if_pos (by simp [hseen]), if_neg (by simp [hseen])]
        exact ih seen
    · rw [if_pos (by simp [hid]), if_neg (by simp [hid])]
      exact ih seen

theorem resolveContextAssets_eq_spec (sel : Selection) :
    resolveContextAssets sel = specResolveAmended sel := by
  unfold resolveContextAssets specResolveAmended specOrderedIDs
  rw [resolveLoop_eq_lookupAll, walkFilter_eq]
  congr 1
  refine congrArg dedupKeepFirst (List.filter_eq_self.mpr (fun a _ => by simp))

theorem mem_dedupKeepFirst_of_mem {z : List Char} {l : List (List Char)}
    (hz : z ∈ l) : z ∈ dedupKeepFirst l := by
  induction l with
  | nil => simp at hz
  | cons x xs ih =>
    rcases List.mem_cons.mp hz with h | h
    · simp [dedupKeepFirst, h]
    · by_cases hzx : z = x
      · simp [dedupKeepFirst, hzx]
      · exact List.mem_cons_of_mem _
          (List.mem_filter.mpr ⟨ih h, by simp [hzx]⟩)

theorem catalogFind_id {id : List Char} {a : ContextAsset}
    (h : catalogFind id = some a) : a.ID = id := by
  have hp := List.find?_some h
  simpa using hp

theorem lookupAll_ok_map_id {ids : List (List Char)} {out : List ContextAsset}
    (h : lookupAll ids = .ok out) : out.map (fun a => a.ID) = ids := by
  induction ids generalizing out with
  | nil =>
    simp only [lookupAll] at h
    cases h
    rfl
  | cons id rest ih =>
    simp only [lookupAll] at h
    cases hfind : catalogFind id with
    | none => rw [hfind] at h; cases h
    | some a =>
      rw [hfind] at h
      cases hrest : lookupAll rest with
      | error e => rw [hrest] at h; cases h
      | ok out2 =>
        rw [hrest] at h
        cases h
        simp [ih hrest, catalogFind_id hfind]

/-- C2, corrected form. For every Selection on which `resolveContextAssets`
succeeds, the output is exactly the catalog entries for the ID sequence
core.copilot, core.architecture, core.agents, core.design-system, then the
profile-prefixed ProfileID when ProfileID is non-empty, then the
addon-prefixed AddonIDs, then the AssetIDs verbatim, walked in a single
order-preserving pass that skips blank and already-seen IDs (first
occurrence wins); consequently every core base ID is present in the output,
the output has no duplicate IDs, and resolving the same Selection again
yields the same ordered output. -/
theorem c2_resolve_exact (sel : Selection) (out : List ContextAsset)
    (hok : resolveContextAssets sel = .ok out) :
    specResolveAmended sel = .ok out
    ∧ (∀ cid ∈ baseContextIDs, ∃ a ∈ out, a.ID = cid)
    ∧ (out.map (fun a => a.ID)).Nodup
    ∧ (∀ out2, resolveContextAssets sel = .ok out2 → out2 = out) := by
  have hspec : specResolveAmended sel = .ok out := by
    rw [← resolveContextAssets_eq_spec]; exact hok
  have hmap : out.map (fun a => a.ID)
      = specOrderedIDs (combinedIDs sel) := lookupAll_ok_map_id hspec
  refine ⟨hspec, ?_, ?_, ?_⟩
  · intro cid hcid
    have hmem : cid ∈ specOrderedIDs (combinedIDs sel) := by
      refine mem_dedupKeepFirst_of_mem (List.mem_filter.mpr ⟨?_, ?_⟩)
      · unfold combinedIDs
        exact List.mem_append_left _ (List.mem_append_left _
          (List.mem_append_left _ hcid))
      · have hcases : cid = chars "core.copilot"
            ∨ cid = chars "core.architecture" ∨ cid = chars "core.agents"
            ∨ cid = chars "core.design-system" := by
          simpa [baseContextIDs] using hcid
        rcases hcases with h | h | h | h <;> (rw [h]; decide)
    rw [← hmap] at hmem
    rcases List.mem_map.mp hmem with ⟨a, ha, haid⟩
    exact ⟨a, ha, haid⟩
  · rw [hmap]
    exact dedupKeepFirst_nodup _
  · intro out2 h2
    rw [hok] at h2
    exact (Except.ok.inj h2).symm

/-- Demonstration Selection used by the C2 witness: a valid tier-1 stack
with both addons and a palette asset. -/
def c2DemoSel : Selection :=
  ⟨ chars "elixir-phoenix",
    [chars "data-intensive", chars "frontend-craft"],
    [chars "asset.palette.heroui-blue"],
    95 / 100, chars "demo" ⟩

/-- Resolution result of `c2DemoSel`, written out. -/
def c2DemoOut : List ContextAsset :=
  [ catCoreCopilot, catCoreArchitecture, catCoreAgents, catCoreDesignSystem,
    catProfileElixirPhoenix, catAddonDataIntensive, catAddonFrontendCraft,
    catAssetPaletteHerouiBlue ]

/-- Witness for C2 at a concrete Selection. -/
theorem c2_resolve_exact_witness :
    specResolveAmended c2DemoSel = .ok c2DemoOut
    ∧ (∀ cid ∈ baseContextIDs, ∃ a ∈ c2DemoOut, a.ID = cid)
    ∧ (c2DemoOut.map (fun a => a.ID)).Nodup
    ∧ (∀ out2, resolveContextAssets c2DemoSel = .ok out2 → out2 = c2DemoOut) :=
  c2_resolve_exact c2DemoSel c2DemoOut rfl

/-- Selection with an empty ProfileID: `resolveContextAssets` succeeds on
it, while the ID sequence exactly as the claim words it (profile-prefixed
ProfileID included unconditionally) contains the unresolvable ID
`profile.` and therefore cannot resolve. -/
def emptyProfileSel : Selection := ⟨ [], [], [], 9 / 10, [] ⟩

/-- Counterexample to C2 as stated: with an empty ProfileID the code
succeeds (returning exactly the four core entries), but the claimed ID
sequence contains `profile.`, which is not a catalog entry, so the output
is not the catalog entries of the claimed sequence. -/
theorem c2_counterexample :
    resolveContextAssets emptyProfileSel
      = .ok [catCoreCopilot, catCoreArchitecture, catCoreAgents,
             catCoreDesignSystem]
    ∧ specResolveClaimed emptyProfileSel = .error (chars "profile.") :=
  ⟨rfl, rfl⟩

/-- An ID the resolution walk cannot resolve: non-blank and absent from the
catalog. -/
def isUnresolvable (id : List Char) : Bool :=
  !id.isEmpty && (catalogFind id).isNone

theorem resolveLoop_error {u : List Char} (ids seen : List (List Char))
    (hseen : ∀ s ∈ seen, (catalogFind s).isSome = true)
    (hfind : ids.find? isUnresolvable = some u) :
    resolveLoop ids seen = .error u := by
  induction ids generalizing seen with
  | nil => simp [List.find?] at hfind
  | cons id rest ih =>
    rw [resolveLoop_cons]
    cases hid : id.isEmpty
    · cases hseenid : seen.contains id
      · rw [if_neg (by simp [hid, hseenid])]
        cases hlook : catalogFind id with
        | none =>
          have hu : u = id := by
            have : isUnresolvable id = true := by
              simp [isUnresolvable, hid, hlook]
            rw [List.find?_cons_of_pos _ this] at hfind
            exact (Option.some.inj hfind).symm
          rw [hu]
        | some a =>
          have hnot : isUnresolvable id = false := by
            simp [isUnresolvable, hlook]
          rw [List.find?_cons_of_neg _ (by simp [hnot])] at hfind
          have hrest := ih (id :: seen)
            (by
              intro s hs
              rcases List.mem_cons.mp hs with h | h
              · rw [h, hlook]; rfl
              · exact hseen s h)
            hfind
          rw [hrest]
      · rw [if_pos (by simp [hseenid])]
        have hmem : id ∈ seen := by
          simpa using hseenid
        have hsome : (catalogFind id).isSome = true := hseen id hmem
        have hnot : isUnresolvable id = false := by
          rcases Option.isSome_iff_exists.mp hsome with ⟨a, ha⟩
          simp [isUnresolvable, ha]
        rw [List.find?_cons_of_neg _ (by simp [hnot])] at hfind
        exact ih seen hseen hfind
    · rw [if_pos (by simp [hid])]
      have hnot : isUnresolvable id = false := by
        simp [isUnresolvable, hid]
      rw [List.find?_cons_of_neg _ (by simp [hnot])] at hfind
      exact ih seen hseen hfind

/-- C3, corrected form. For every Selection whose combined ID list (core
base IDs, prefixed ProfileID when ProfileID is non-empty, prefixed
AddonIDs, verbatim AssetIDs) contains some non-empty ID that is not in the
catalog map, `resolveContextAssets` returns an error naming the first such
unresolvable ID and returns no asset list; an unknown ID is never silently
skipped. -/
theorem c3_first_unresolvable (sel : Selection)
    (h : ∃ id ∈ combinedIDs sel, isUnresolvable id = true) :
    ∃ u, (combinedIDs sel).find? isUnresolvable = some u
      ∧ resolveContextAssets sel = .error u := by
  have hsome : ((combinedIDs sel).find? isUnresolvable).isSome = true := by
    rcases h with ⟨id, hid, hu⟩
    exact List.find?_isSome.mpr ⟨id, hid, hu⟩
  rcases Option.isSome_iff_exists.mp hsome with ⟨u, hu⟩
  exact ⟨u, hu, resolveLoop_error _ _ (by intro s hs; cases hs) hu⟩

/-- Selection naming an asset that is not in the catalog. -/
def c3DemoSel : Selection :=
  ⟨ chars "go-service", [], [chars "asset.palette.missing"], 9 / 10, [] ⟩

/-- Witness for C3: resolution fails naming the unknown asset ID. -/
theorem c3_first_unresolvable_witness :
    ∃ u, (combinedIDs c3DemoSel).find? isUnresolvable = some u
      ∧ resolveContextAssets c3DemoSel = .error u :=
  c3_first_unresolvable c3DemoSel
    ⟨chars "asset.palette.missing", by decide, by decide⟩

/-- Counterexample to C3 as stated: with an empty ProfileID the claimed
combined ID list (profile-prefixed ProfileID included unconditionally)
contains the non-empty ID `profile.` which is not in the catalog, yet
`resolveContextAssets` succeeds instead of returning an error. -/
theorem c3_counterexample :
    (∃ id ∈ claimedIDSequence emptyProfileSel, isUnresolvable id = true)
    ∧ resolveContextAssets emptyProfileSel
      = .ok [catCoreCopilot, catCoreArchitecture, catCoreAgents,
             catCoreDesignSystem] :=
  ⟨⟨chars "profile.", by decide, by decide⟩, rfl⟩

/-!
Compatibility validator, embedded from `ValidateSelectionCompatibility`
(`engine.go`). Issue strings are built exactly as the Go code builds them.
-/

/-- Profiles accepted by this build (`validProfile` map in Go). -/
def validProfile (pid : List Char) : Bool :=
  [ chars "elixir-phoenix", chars "typescript-sveltekit", chars "ruby-rails",
    chars "typescript-nextjs", chars "typescript-fastify", chars "go-service",
    chars "dotnet-api", chars "python-fastapi", chars "python-django",
    chars "dart-flutter", chars "rust-axum", chars "laravel" ].contains pid

/-- Allowed-addon table (`allowedAddonsByProfile` map in Go). -/
def allowedAddonsTable : List (List Char × List (List Char)) :=
  [ (chars "elixir-phoenix", [chars "frontend-craft", chars "data-intensive"]),
    (chars "typescript-sveltekit",
      [chars "frontend-craft", chars "data-intensive"]),
    (chars "ruby-rails", [chars "frontend-craft", chars "data-intensive"]),
    (chars "typescript-nextjs", [chars "frontend-craft", chars "data-intensive"]),
    (chars "typescript-fastify", [chars "data-intensive"]),
    (chars "go-service", [chars "data-intensive"]),
    (chars "dotnet-api", [chars "data-intensive"]),
    (chars "python-fastapi", [chars "data-intensive"]),
    (chars "python-django", [chars "frontend-craft", chars "data-intensive"]),
    (chars "dart-flutter", [chars "frontend-craft"]),
    (chars "rust-axum", [chars "data-intensive"]),
    (chars "laravel", [chars "frontend-craft", chars "data-intensive"]) ]

def allowedAddonsByProfile (pid : List Char) : Option (List (List Char)) :=
  (allowedAddonsTable.find? (fun e => e.1 == pid)).map (fun e => e.2)

def requiredMsg : List Char := chars "profile_id is required"

def unsupportedMsg : List Char :=
  chars "profile_id is not supported by this Launchpad build"

def dupAddonMsg (id : List Char) : List Char :=
  chars "duplicate addon_id: " ++ id

def compatMsg (id : List Char) : List Char :=
  chars "addon_id not compatible with selected profile: " ++ id

def dupAssetMsg (id : List Char) : List Char :=
  chars "duplicate asset_id: " ++ id

def paletteIssueMsg : List Char := chars "only one palette asset may be selected"

def fontIssueMsg : List Char := chars "only one font asset may be selected"

def lintIssueMsg : List Char := chars "only one linting asset may be selected"

def testingIssueMsg : List Char :=
  chars "only one testing asset may be selected"

/-- Profile checks of the validator (first block of the Go function). -/
def profileIssues (pid : List Char) : List (List Char) :=
  if pid.isEmpty then [requiredMsg]
  else if validProfile pid then [] else [unsupportedMsg]

/-- Addon loop of the validator: skip blanks, report every re-occurrence of
a seen addon, and check first occurrences against the allowed table. -/
def addonLoop (pid : List Char) :
    List (List Char) → List (List Char) → List (List Char)
  | [], _ => []
  | a :: rest, seen =>
    if a.isEmpty then addonLoop pid rest seen
    else if seen.contains a then dupAddonMsg a :: addonLoop pid rest seen
    else
      match allowedAddonsByProfile pid with
      | none => compatMsg a :: addonLoop pid rest (a :: seen)
      | some allowed =>
        if allowed.contains a then addonLoop pid rest (a :: seen)
        else compatMsg a :: addonLoop pid rest (a :: seen)

/-- Exclusive-category prefixes, in the order the Go switch tests them. -/
def palettePre : List Char := chars "asset.palette."

def fontsPre : List Char := chars "asset.fonts."

def lintPre : List Char := chars "asset.lint"

def testingPre : List Char := chars "asset.testing."

/-- State of the asset loop: the duplicate issues it reported plus the four
exclusive-category counters. -/
structure AssetScanState where
  issues : List (List Char)
  palette : Nat
  fonts : Nat
  lint : Nat
  testing : Nat
  deriving DecidableEq

/-- Asset loop of the validator: skip blanks, report re-occurrences, and
count distinct assets per exclusive-category prefix. -/
def assetScan : List (List Char) → List (List Char) → AssetScanState
  | [], _ => ⟨[], 0, 0, 0, 0⟩
  | a :: rest, seen =>
    if a.isEmpty then assetScan rest seen
    else if seen.contains a then
      let st := assetScan rest seen
      ⟨dupAssetMsg a :: st.issues, st.palette, st.fonts, st.lint, st.testing⟩
    else
      let st := assetScan rest (a :: seen)
      if startsWith palettePre a then
        ⟨st.issues, st.palette + 1, st.fonts, st.lint, st.testing⟩
      else if startsWith fontsPre a then
        ⟨st.issues, st.palette, st.fonts + 1, st.lint, st.testing⟩
      else if startsWith lintPre a then
        ⟨st.issues, st.palette, st.fonts, st.lint + 1, st.testing⟩
      else if startsWith testingPre a then
        ⟨st.issues, st.palette, st.fonts, st.lint, st.testing + 1⟩
      else st

/-- Model of `ValidateSelectionCompatibility` (`engine.go`): all issues are
collected in source order, never short-circuited. -/
def ValidateSelectionCompatibility (selection : Selection) : List (List Char) :=
  profileIssues selection.ProfileID
    ++ addonLoop selection.ProfileID selection.AddonIDs []
    ++ (assetScan selection.AssetIDs []).issues
    ++ (if (assetScan selection.AssetIDs []).palette > 1
        then [paletteIssueMsg] else [])
    ++ (if (assetScan selection.AssetIDs []).fonts > 1
        then [fontIssueMsg] else [])
    ++ (if (assetScan selection.AssetIDs []).lint > 1
        then [lintIssueMsg] else [])
    ++ (if (assetScan selection.AssetIDs []).testing > 1
        then [testingIssueMsg] else [])

/-! Helper lemmas distinguishing the validator message families. -/

theorem append_ne_append_of_take {n : Nat} {p1 p2 a b : List Char}
    (h1 : n ≤ p1.length) (h2 : n ≤ p2.length)
    (hne : p1.take n ≠ p2.take n) : p1 ++ a ≠ p2 ++ b := by
  intro h
  refine hne ?_
  have htake := congrArg (List.take n) h
  rwa [List.take_append_of_le_length h1, List.take_append_of_le_length h2]
    at htake

theorem ne_append_of_take {n : Nat} {m p a : List Char}
    (h2 : n ≤ p.length) (hne : m.take n ≠ p.take n) : m ≠ p ++ a := by
  intro h
  refine hne ?_
  have htake := congrArg (List.take n) h
  rwa [List.take_append_of_le_length h2] at htake

theorem dupAddonMsg_inj {a b : List Char} (h : dupAddonMsg a = dupAddonMsg b) :
    a = b := List.append_cancel_left h

theorem dupAssetMsg_inj {a b : List Char} (h : dupAssetMsg a = dupAssetMsg b) :
    a = b := List.append_cancel_left h

theorem dupAddonMsg_ne_dupAssetMsg (a b : List Char) :
    dupAddonMsg a ≠ dupAssetMsg b :=
  append_ne_append_of_take (n := 12) (by decide) (by decide) (by decide)

theorem compatMsg_ne_dupAddonMsg (a b : List Char) :
    compatMsg a ≠ dupAddonMsg b :=
  append_ne_append_of_take (n := 10) (by decide) (by decide) (by decide)

theorem compatMsg_ne_dupAssetMsg (a b : List Char) :
    compatMsg a ≠ dupAssetMsg b :=
  append_ne_append_of_take (n := 10) (by decide) (by decide) (by decide)

theorem requiredMsg_ne_dupAddonMsg (b : List Char) :
    requiredMsg ≠ dupAddonMsg b :=
  ne_append_of_take (n := 9) (by decide) (by decide)

theorem requiredMsg_ne_dupAssetMsg (b : List Char) :
    requiredMsg ≠ dupAssetMsg b :=
  ne_append_of_take (n := 9) (by decide) (by decide)

theorem unsupportedMsg_ne_dupAddonMsg (b : List Char) :
    unsupportedMsg ≠ dupAddonMsg b :=
  ne_append_of_take (n := 9) (by decide) (by decide)

theorem unsupportedMsg_ne_dupAssetMsg (b : List Char) :
    unsupportedMsg ≠ dupAssetMsg b :=
  ne_append_of_take (n := 9) (by decide) (by decide)

/-! Step equations and element-shape lemmas for the validator loops. -/

theorem addonLoop_cons (pid a : List Char) (rest seen : List (List Char)) :
    addonLoop pid (a :: rest) seen
      = if a.isEmpty then addonLoop pid rest seen
        else if seen.contains a then dupAddonMsg a :: addonLoop pid rest seen
        else
          match allowedAddonsByProfile pid with
          | none => compatMsg a :: addonLoop pid rest (a :: seen)
          | some allowed =>
            if allowed.contains a then addonLoop pid rest (a :: seen)
            else compatMsg a :: addonLoop pid rest (a :: seen) := rfl

theorem assetScan_cons (a : List Char) (rest seen : List (List Char)) :
    assetScan (a :: rest) seen
      = if a.isEmpty then assetScan rest seen
        else if seen.contains a then
          let st := assetScan rest seen
          ⟨dupAssetMsg a :: st.issues, st.palette, st.fonts, st.lint, st.testing⟩
        else
          let st := assetScan rest (a :: seen)
          if startsWith palettePre a then
            ⟨st.issues, st.palette + 1, st.fonts, st.lint, st.testing⟩
          else if startsWith fontsPre a then
            ⟨st.issues, st.palette, st.fonts + 1, st.lint, st.testing⟩
          else if startsWith lintPre a then
            ⟨st.issues, st.palette, st.fonts, st.lint + 1, st.testing⟩
          else if startsWith testingPre a then
            ⟨st.issues, st.palette, st.fonts, st.lint, st.testing + 1⟩
          else st := rfl

theorem mem_profileIssues {x pid : List Char} (h : x ∈ profileIssues pid) :
    x = requiredMsg ∨ x = unsupportedMsg := by
  unfold profileIssues at h
  split at h
  · simp at h
    exact Or.inl h
  · split at h
    · simp at h
    · simp at h
      exact Or.inr h

theorem mem_addonLoop {x pid : List Char} {l seen : List (List Char)}
    (h : x ∈ addonLoop pid l seen) :
    (∃ a, x = dupAddonMsg a) ∨ (∃ a, x = compatMsg a) := by
  induction l generalizing seen with
  | nil => cases h
  | cons a rest ih =>
    rw [addonLoop_cons] at h
    split at h
    · exact ih h
    · split at h
      · rcases List.mem_cons.mp h with hx | hx
        · exact Or.inl ⟨a, hx⟩
        · exact ih hx
      · split at h
        · rcases List.mem_cons.mp h with hx | hx
          · exact Or.inr ⟨a, hx⟩
          · exact ih hx
        · split at h
          · exact ih h
          · rcases List.mem_cons.mp h with hx | hx
            · exact Or.inr ⟨a, hx⟩
            · exact ih hx

theorem assetScan_issues_new (a : List Char) (rest seen : List (List Char))
    (ha : a.isEmpty = false) (hseen : seen.contains a = false) :
    (assetScan (a :: rest) seen).issues
      = (assetScan rest (a :: seen)).issues := by
  rw [assetScan_cons, if_neg (by simp [ha]),
    if_neg (by rw [hseen]; exact Bool.false_ne_true)]
  dsimp only
  split
  · rfl
  · split
    · rfl
    · split
      · rfl
      · split <;> rfl

theorem mem_assetScan_issues {x : List Char} {l seen : List (List Char)}
    (h : x ∈ (assetScan l seen).issues) : ∃ a, x = dupAssetMsg a := by
  induction l generalizing seen with
  | nil => cases h
  | cons a rest ih =>
    by_cases ha : a.isEmpty
    · rw [assetScan_cons, if_pos ha] at h
      exact ih h
    · cases hseen : seen.contains a
      · rw [assetScan_issues_new a rest seen (by simpa using ha) hseen] at h
        exact ih h
      · rw [assetScan_cons, if_neg ha, if_pos hseen] at h
        rcases List.mem_cons.mp h with hx | hx
        · exact ⟨a, hx⟩
        · exact ih hx

/-! Counting lemmas for the duplicate-report behaviour of the validator. -/

theorem count_profileIssues_dupAddon (pid id : List Char) :
    (profileIssues pid).count (dupAddonMsg id) = 0 := by
  refine List.count_eq_zero.mpr (fun hmem => ?_)
  rcases mem_profileIssues hmem with h | h
  · exact requiredMsg_ne_dupAddonMsg id h.symm
  · exact unsupportedMsg_ne_dupAddonMsg id h.symm

theorem count_profileIssues_dupAsset (pid id : List Char) :
    (profileIssues pid).count (dupAssetMsg id) = 0 := by
  refine List.count_eq_zero.mpr (fun hmem => ?_)
  rcases mem_profileIssues hmem with h | h
  · exact requiredMsg_ne_dupAssetMsg id h.symm
  · exact unsupportedMsg_ne_dupAssetMsg id h.symm

theorem count_addonLoop_dupAsset (pid id : List Char)
    (l seen : List (List Char)) :
    (addonLoop pid l seen).count (dupAssetMsg id) = 0 := by
  refine List.count_eq_zero.mpr (fun hmem => ?_)
  rcases mem_addonLoop hmem with ⟨a, h⟩ | ⟨a, h⟩
  · exact dupAddonMsg_ne_dupAssetMsg a id h.symm
  · exact compatMsg_ne_dupAssetMsg a id h.symm

theorem count_assetScan_dupAddon (id : List Char) (l seen : List (List Char)) :
    (assetScan l seen).issues.count (dupAddonMsg id) = 0 := by
  refine List.count_eq_zero.mpr (fun hmem => ?_)
  rcases mem_assetScan_issues hmem with ⟨a, h⟩
  exact dupAddonMsg_ne_dupAssetMsg id a h

theorem count_ite_singleton {c : Prop} [Decidable c] (m q : List Char)
    (hne : m ≠ q) : (if c then [m] else []).count q = 0 := by
  split
  · simp [List.count_cons, hne]
  · rfl

theorem count_ite_singleton_self {c : Prop} [Decidable c] (m : List Char) :
    (if c then [m] else []).count m = if c then 1 else 0 := by
  split
  · simp [List.count_cons]
  · rfl

theorem addonLoop_count_dup (pid id : List Char) (l seen : List (List Char))
    (hid : id.isEmpty = false) :
    (addonLoop pid l seen).count (dupAddonMsg id)
      = if seen.contains id then l.count id else l.count id - 1 := by
  induction l generalizing seen with
  | nil =>
    cases h : seen.contains id <;> simp [addonLoop, h]
  | cons a rest ih =>
    rw [addonLoop_cons]
    by_cases ha : a.isEmpty
    · have hne : (a == id) = false := by
        refine beq_eq_false_iff_ne.mpr (fun h => ?_)
        rw [h] at ha
        rw [hid] at ha
        cases ha
      rw [if_pos ha, ih seen, List.count_cons, hne]
      simp
    · cases hseen : seen.contains a
      · rw [if_neg ha, if_neg Bool.false_ne_true]
        have hcore :
            (addonLoop pid rest (a :: seen)).count (dupAddonMsg id)
              = if seen.contains id then (a :: rest).count id
                else (a :: rest).count id - 1 := by
          rw [ih (a :: seen)]
          cases haid : (a == id)
          · have hidna : (id == a) = false := by
              refine beq_eq_false_iff_ne.mpr (fun h => ?_)
              rw [h] at haid
              simp at haid
            rw [List.contains_cons, hidna, Bool.false_or,
              List.count_cons, haid]
            simp
          · have haeq : a = id := by simpa using haid
            subst haeq
            rw [List.contains_cons, List.count_cons]
            have hmem : a ∉ seen := by simpa using hseen
            simp [hmem]
        cases hallow : allowedAddonsByProfile pid with
        | none =>
          rw [List.count_cons,
            show (compatMsg a == dupAddonMsg id) = false from
              beq_eq_false_iff_ne.mpr (compatMsg_ne_dupAddonMsg a id),
            hcore]
          simp
        | some allowed =>
          dsimp only
          split
          · exact hcore
          · rw [List.count_cons,
              show (compatMsg a == dupAddonMsg id) = false from
                beq_eq_false_iff_ne.mpr (compatMsg_ne_dupAddonMsg a id),
              hcore]
            simp
      · rw [if_neg ha, if_pos rfl]
        cases haid : (a == id)
        · have hanid : a ≠ id := beq_eq_false_iff_ne.mp haid
          rw [List.count_cons,
            show (dupAddonMsg a == dupAddonMsg id) = false from
              beq_eq_false_iff_ne.mpr (fun h => hanid (dupAddonMsg_inj h)),
            ih seen, List.count_cons, haid]
          cases hs2 : seen.contains id <;> simp [hs2]
        · have haeq : a = id := by simpa using haid
          subst haeq
          rw [List.count_cons, ih seen]
          have hmem : a ∈ seen := by simpa using hseen
          simp [hmem, List.count_cons]

theorem assetScan_count_dup (id : List Char) (l seen : List (List Char))
    (hid : id.isEmpty = false) :
    (assetScan l seen).issues.count (dupAssetMsg id)
      = if seen.contains id then l.count id else l.count id - 1 := by
  induction l generalizing seen with
  | nil =>
    cases h : seen.contains id <;> simp [assetScan, h]
  | cons a rest ih =>
    by_cases ha : a.isEmpty
    · have hne : (a == id) = false := by
        refine beq_eq_false_iff_ne.mpr (fun h => ?_)
        rw [h] at ha
        rw [hid] at ha
        cases ha
      rw [assetScan_cons, if_pos ha, ih seen, List.count_cons, hne]
      simp
    · have haf : a.isEmpty = false := by simpa using ha
      cases hseen : seen.contains a
      · rw [assetScan_issues_new a rest seen haf hseen, ih (a :: seen)]
        cases haid : (a == id)
        · have hidna : (id == a) = false := by
            refine beq_eq_false_iff_ne.mpr (fun h => ?_)
            rw [h] at haid
            simp at haid
          rw [List.contains_cons, hidna, Bool.false_or,
            List.count_cons, haid]
          simp
        · have haeq : a = id := by simpa using haid
          subst haeq
          rw [List.contains_cons, List.count_cons]
          have hmem : a ∉ seen := by simpa using hseen
          simp [hmem]
      · rw [assetScan_cons, if_neg ha, if_pos hseen]
        dsimp only
        cases haid : (a == id)
        · have hanid : a ≠ id := beq_eq_false_iff_ne.mp haid
          rw [List.count_cons,
            show (dupAssetMsg a == dupAssetMsg id) = false from
              beq_eq_false_iff_ne.mpr (fun h => hanid (dupAssetMsg_inj h)),
            ih seen, List.count_cons, haid]
          cases hs2 : seen.contains id <;> simp [hs2]
        · have haeq : a = id := by simpa using haid
          subst haeq
          rw [List.count_cons, ih seen]
          have hmem : a ∈ seen := by simpa using hseen
          simp [hmem, List.count_cons]

/-- C5, corrected form. The validator reports one duplicate issue per
re-occurrence, not one per duplicated ID: for every Selection and every
non-empty ID, the number of `duplicate addon_id` (resp.
`duplicate asset_id`) issues equals the number of occurrences of that ID
in AddonIDs (resp. AssetIDs) minus one — n occurrences yield n - 1 issues,
which is a single issue exactly when n = 2. -/
theorem c5_duplicate_issue_counts (sel : Selection) (id : List Char)
    (hid : id.isEmpty = false) :
    (ValidateSelectionCompatibility sel).count (dupAddonMsg id)
        = sel.AddonIDs.count id - 1
    ∧ (ValidateSelectionCompatibility sel).count (dupAssetMsg id)
        = sel.AssetIDs.count id - 1 := by
  unfold ValidateSelectionCompatibility
  constructor
  · simp only [List.count_append]
    rw [count_profileIssues_dupAddon, count_assetScan_dupAddon,
      addonLoop_count_dup _ _ _ _ hid,
      count_ite_singleton paletteIssueMsg (dupAddonMsg id)
        (ne_append_of_take (n := 9) (by decide) (by decide)),
      count_ite_singleton fontIssueMsg (dupAddonMsg id)
        (ne_append_of_take (n := 9) (by decide) (by decide)),
      count_ite_singleton lintIssueMsg (dupAddonMsg id)
        (ne_append_of_take (n := 9) (by decide) (by decide)),
      count_ite_singleton testingIssueMsg (dupAddonMsg id)
        (ne_append_of_take (n := 9) (by decide) (by decide))]
    simp
  · simp only [List.count_append]
    rw [count_profileIssues_dupAsset, count_addonLoop_dupAsset,
      assetScan_count_dup _ _ _ hid,
      count_ite_singleton paletteIssueMsg (dupAssetMsg id)
        (ne_append_of_take (n := 9) (by decide) (by decide)),
      count_ite_singleton fontIssueMsg (dupAssetMsg id)
        (ne_append_of_take (n := 9) (by decide) (by decide)),
      count_ite_singleton lintIssueMsg (dupAssetMsg id)
        (ne_append_of_take (n := 9) (by decide) (by decide)),
      count_ite_singleton testingIssueMsg (dupAssetMsg id)
        (ne_append_of_take (n := 9) (by decide) (by decide))]
    simp

/-- Selection repeating the same addon three times. -/
def c5DemoSel : Selection :=
  ⟨ chars "ruby-rails",
    [chars "data-intensive", chars "data-intensive", chars "data-intensive"],
    [], 9 / 10, [] ⟩

/-- Counterexample to C5 as stated: an addon occurring three times yields
two duplicate issues (one per occurrence beyond the first), not exactly
one. -/
theorem c5_counterexample :
    (ValidateSelectionCompatibility c5DemoSel).count
      (dupAddonMsg (chars "data-intensive")) = 2 := by
  decide

/-- Witness for C5 at the same concrete Selection. -/
theorem c5_duplicate_issue_counts_witness :
    (ValidateSelectionCompatibility c5DemoSel).count
        (dupAddonMsg (chars "data-intensive"))
        = c5DemoSel.AddonIDs.count (chars "data-intensive") - 1
    ∧ (ValidateSelectionCompatibility c5DemoSel).count
        (dupAssetMsg (chars "data-intensive"))
        = c5DemoSel.AssetIDs.count (chars "data-intensive") - 1 :=
  c5_duplicate_issue_counts c5DemoSel (chars "data-intensive") (by decide)

/-! Exclusive-category counting (claim C6). -/

theorem startsWith_excl {p q a : List Char} (hnpq : ¬ p <+: q)
    (hnqp : ¬ q <+: p) (hp : startsWith p a = true) :
    startsWith q a = false := by
  cases hq : startsWith q a
  · rfl
  · exfalso
    have h1 : p <+: a := by simpa [startsWith] using hp
    have h2 : q <+: a := by simpa [startsWith] using hq
    rcases List.prefix_or_prefix_of_prefix h1 h2 with h | h
    · exact hnpq h
    · exact hnqp h

theorem assetScan_counts (l seen : List (List Char)) :
    ((assetScan l seen).palette
        = (walkFilter (fun a => !a.isEmpty) l seen).countP
            (fun a => startsWith palettePre a))
    ∧ ((assetScan l seen).fonts
        = (walkFilter (fun a => !a.isEmpty) l seen).countP
            (fun a => startsWith fontsPre a))
    ∧ ((assetScan l seen).lint
        = (walkFilter (fun a => !a.isEmpty) l seen).countP
            (fun a => startsWith lintPre a))
    ∧ ((assetScan l seen).testing
        = (walkFilter (fun a => !a.isEmpty) l seen).countP
            (fun a => startsWith testingPre a)) := by
  induction l generalizing seen with
  | nil => exact ⟨rfl, rfl, rfl, rfl⟩
  | cons a rest ih =>
    by_cases ha : a.isEmpty
    · rw [assetScan_cons, if_pos ha, walkFilter_cons,
        if_neg (by simp [ha])]
      exact ih seen
    · have haf : a.isEmpty = false := by simpa using ha
      cases hseen : seen.contains a
      · rw [assetScan_cons, if_neg ha, if_neg (by rw [hseen]; decide),
          walkFilter_cons,
          if_pos (show (!a.isEmpty && !seen.contains a) = true by
            rw [haf, hseen]; decide)]
        obtain ⟨ihp, ihf, ihl, iht⟩ := ih (a :: seen)
        refine ⟨?_, ?_, ?_, ?_⟩
        · split
          · next h1 => simp [List.countP_cons, ihp, h1]
          · split
            · next h1 h2 => simp [List.countP_cons, ihp, h1]
            · split
              · next h1 h2 h3 => simp [List.countP_cons, ihp, h1]
              · split
                · next h1 h2 h3 h4 => simp [List.countP_cons, ihp, h1]
                · next h1 h2 h3 h4 => simp [List.countP_cons, ihp, h1]
        · split
          · next h1 =>
            simp [List.countP_cons, ihf,
              startsWith_excl (q := fontsPre) (by decide) (by decide) h1]
          · split
            · next h1 h2 => simp [List.countP_cons, ihf, h2]
            · split
              · next h1 h2 h3 => simp [List.countP_cons, ihf, h2]
              · split
                · next h1 h2 h3 h4 => simp [List.countP_cons, ihf, h2]
                · next h1 h2 h3 h4 => simp [List.countP_cons, ihf, h2]
        · split
          · next h1 =>
            simp [List.countP_cons, ihl,
              startsWith_excl (q := lintPre) (by decide) (by decide) h1]
          · split
            · next h1 h2 =>
              simp [List.countP_cons, ihl,
                startsWith_excl (q := lintPre) (by decide) (by decide) h2]
            · split
              · next h1 h2 h3 => simp [List.countP_cons, ihl, h3]
              · split
                · next h1 h2 h3 h4 => simp [List.countP_cons, ihl, h3]
                · next h1 h2 h3 h4 => simp [List.countP_cons, ihl, h3]
        · split
          · next h1 =>
            simp [List.countP_cons, iht,
              startsWith_excl (q := testingPre) (by decide) (by decide) h1]
          · split
            · next h1 h2 =>
              simp [List.countP_cons, iht,
                startsWith_excl (q := testingPre) (by decide) (by decide) h2]
            · split
              · next h1 h2 h3 =>
                simp [List.countP_cons, iht,
                  startsWith_excl (q := testingPre) (by decide) (by decide) h3]
              · split
                · next h1 h2 h3 h4 => simp [List.countP_cons, iht, h4]
                · next h1 h2 h3 h4 => simp [List.countP_cons, iht, h4]
      · rw [assetScan_cons, if_neg ha, if_pos hseen, walkFilter_cons,
          if_neg (by rw [haf, hseen]; decide)]
        exact ih seen

theorem walkFilter_no_seen (keep : List Char → Bool) (l : List (List Char)) :
    walkFilter keep l [] = dedupKeepFirst (l.filter keep) := by
  rw [walkFilter_eq]
  exact congrArg dedupKeepFirst (List.filter_eq_self.mpr (fun a _ => by simp))

/-- Number of distinct, non-blank asset IDs carrying an exclusive-category
prefix, phrased on the spec side. -/
def exclusiveCount (ids : List (List Char)) (pre : List Char) : Nat :=
  (specOrderedIDs ids).countP (fun a => startsWith pre a)

theorem count_profileIssues_other (pid m : List Char)
    (h1 : m ≠ requiredMsg) (h2 : m ≠ unsupportedMsg) :
    (profileIssues pid).count m = 0 := by
  refine List.count_eq_zero.mpr (fun hmem => ?_)
  rcases mem_profileIssues hmem with h | h
  · exact h1 h
  · exact h2 h

theorem count_addonLoop_other (pid m : List Char) (l seen : List (List Char))
    (h1 : ∀ a, m ≠ dupAddonMsg a) (h2 : ∀ a, m ≠ compatMsg a) :
    (addonLoop pid l seen).count m = 0 := by
  refine List.count_eq_zero.mpr (fun hmem => ?_)
  rcases mem_addonLoop hmem with ⟨a, h⟩ | ⟨a, h⟩
  · exact h1 a h
  · exact h2 a h

theorem count_assetScan_other (m : List Char) (l seen : List (List Char))
    (h1 : ∀ a, m ≠ dupAssetMsg a) :
    (assetScan l seen).issues.count m = 0 := by
  refine List.count_eq_zero.mpr (fun hmem => ?_)
  rcases mem_assetScan_issues hmem with ⟨a, h⟩
  exact h1 a h

/-- C6. For every Selection, each exclusive category (palette, fonts,
linting, testing — inferred from the structural ID prefix) with two or
more distinct selected assets contributes exactly one validation issue,
regardless of how many assets of that category were selected; with at most
one distinct asset it contributes none. -/
theorem c6_exclusive_categories (sel : Selection) :
    ((ValidateSelectionCompatibility sel).count paletteIssueMsg
        = if 2 ≤ exclusiveCount sel.AssetIDs palettePre then 1 else 0)
    ∧ ((ValidateSelectionCompatibility sel).count fontIssueMsg
        = if 2 ≤ exclusiveCount sel.AssetIDs fontsPre then 1 else 0)
    ∧ ((ValidateSelectionCompatibility sel).count lintIssueMsg
        = if 2 ≤ exclusiveCount sel.AssetIDs lintPre then 1 else 0)
    ∧ ((ValidateSelectionCompatibility sel).count testingIssueMsg
        = if 2 ≤ exclusiveCount sel.AssetIDs testingPre then 1 else 0) := by
  obtain ⟨hp, hf, hl, ht⟩ := assetScan_counts sel.AssetIDs []
  have hwalk : walkFilter (fun a => !a.isEmpty) sel.AssetIDs []
      = specOrderedIDs sel.AssetIDs := walkFilter_no_seen _ _
  rw [hwalk] at hp hf hl ht
  unfold ValidateSelectionCompatibility
  refine ⟨?_, ?_, ?_, ?_⟩
  all_goals simp only [List.count_append]
  · rw [count_profileIssues_other _ _ (by decide) (by decide),
      count_addonLoop_other _ _ _ _
        (fun a => ne_append_of_take (n := 9) (by decide) (by decide))
        (fun a => ne_append_of_take (n := 9) (by decide) (by decide)),
      count_assetScan_other _ _ _
        (fun a => ne_append_of_take (n := 9) (by decide) (by decide)),
      count_ite_singleton_self paletteIssueMsg,
      count_ite_singleton fontIssueMsg paletteIssueMsg (by decide),
      count_ite_singleton lintIssueMsg paletteIssueMsg (by decide),
      count_ite_singleton testingIssueMsg paletteIssueMsg (by decide), hp]
    simp [exclusiveCount, Nat.lt_iff_add_one_le]
  · rw [count_profileIssues_other _ _ (by decide) (by decide),
      count_addonLoop_other _ _ _ _
        (fun a => ne_append_of_take (n := 9) (by decide) (by decide))
        (fun a => ne_append_of_take (n := 9) (by decide) (by decide)),
      count_assetScan_other _ _ _
        (fun a => ne_append_of_take (n := 9) (by decide) (by decide)),
      count_ite_singleton paletteIssueMsg fontIssueMsg (by decide),
      count_ite_singleton_self fontIssueMsg,
      count_ite_singleton lintIssueMsg fontIssueMsg (by decide),
      count_ite_singleton testingIssueMsg fontIssueMsg (by decide), hf]
    simp [exclusiveCount, Nat.lt_iff_add_one_le]
  · rw [count_profileIssues_other _ _ (by decide) (by decide),
      count_addonLoop_other _ _ _ _
        (fun a => ne_append_of_take (n := 9) (by decide) (by decide))
        (fun a => ne_append_of_take (n := 9) (by decide) (by decide)),
      count_assetScan_other _ _ _
        (fun a => ne_append_of_take (n := 9) (by decide) (by decide)),
      count_ite_singleton paletteIssueMsg lintIssueMsg (by decide),
      count_ite_singleton fontIssueMsg lintIssueMsg (by decide),
      count_ite_singleton_self lintIssueMsg,
      count_ite_singleton testingIssueMsg lintIssueMsg (by decide), hl]
    simp [exclusiveCount, Nat.lt_iff_add_one_le]
  · rw [count_profileIssues_other _ _ (by decide) (by decide),
      count_addonLoop_other _ _ _ _
        (fun a => ne_append_of_take (n := 9) (by decide) (by decide))
        (fun a => ne_append_of_take (n := 9) (by decide) (by decide)),
      count_assetScan_other _ _ _
        (fun a => ne_append_of_take (n := 9) (by decide) (by decide)),
      count_ite_singleton paletteIssueMsg testingIssueMsg (by decide),
      count_ite_singleton fontIssueMsg testingIssueMsg (by decide),
      count_ite_singleton lintIssueMsg testingIssueMsg (by decide),
      count_ite_singleton_self testingIssueMsg, ht]
    simp [exclusiveCount, Nat.lt_iff_add_one_le]

/-- Selection with two palette assets. -/
def c6DemoSel : Selection :=
  ⟨ chars "ruby-rails", [],
    [chars "asset.palette.heroui-blue", chars "asset.palette.obsidian-indigo"],
    9 / 10, [] ⟩

/-- Witness for C6: two distinct palettes yield exactly one palette issue
and no other exclusive-category issue. -/
theorem c6_exclusive_categories_witness :
    ((ValidateSelectionCompatibility c6DemoSel).count paletteIssueMsg
        = if 2 ≤ exclusiveCount c6DemoSel.AssetIDs palettePre then 1 else 0)
    ∧ ((ValidateSelectionCompatibility c6DemoSel).count fontIssueMsg
        = if 2 ≤ exclusiveCount c6DemoSel.AssetIDs fontsPre then 1 else 0)
    ∧ ((ValidateSelectionCompatibility c6DemoSel).count lintIssueMsg
        = if 2 ≤ exclusiveCount c6DemoSel.AssetIDs lintPre then 1 else 0)
    ∧ ((ValidateSelectionCompatibility c6DemoSel).count testingIssueMsg
        = if 2 ≤ exclusiveCount c6DemoSel.AssetIDs testingPre then 1 else 0) :=
  c6_exclusive_categories c6DemoSel

/-!
Generation gate of `Engine.GenerateFiles` (`engine.go`). The Go function
returns an error at three successive guards before it ever calls
`resolveContextAssets`; each refusal is an error return. The outcome type
records which stage the call reaches.
-/

/-- Threshold below which generation is refused (`confidenceThreshold`). -/
def confidenceThreshold : ℚ := 72 / 100

inductive GenerateOutcome where
  /-- `sel == nil || sel.ProfileID == ""`: error `no stack selected`. -/
  | noStack : GenerateOutcome
  /-- `sel.Confidence < confidenceThreshold`: error `confidence ... below minimum`. -/
  | lowConfidence : GenerateOutcome
  /-- Non-empty validator issues: error `incompatible selection: ...`. -/
  | incompatible (issues : List (List Char)) : GenerateOutcome
  /-- All gates passed: `resolveContextAssets` is invoked with this result. -/
  | resolution (r : Except (List Char) (List ContextAsset)) : GenerateOutcome

/-- Gate portion of `Engine.GenerateFiles`, in the exact order of the Go
guards. -/
def generateFilesGate (sel : Option Selection) : GenerateOutcome :=
  match sel with
  | none => .noStack
  | some s =>
    if s.ProfileID.isEmpty then .noStack
    else if s.Confidence < confidenceThreshold then .lowConfidence
    else
      match ValidateSelectionCompatibility s with
      | [] => .resolution (resolveContextAssets s)
      | issue :: more => .incompatible (issue :: more)

/-- Outcomes in which `GenerateFiles` has returned an error before any
asset resolution or backend call. -/
def refusedBeforeResolution : GenerateOutcome → Prop
  | .noStack => True
  | .lowConfidence => True
  | .incompatible _ => True
  | .resolution _ => False

/-- C1. A Selection below the confidence threshold, or with at least one
compatibility issue (in particular any Selection whose ProfileID is not a
known profile), is refused by `GenerateFiles` before `resolveContextAssets`
is ever invoked; the refusal is an error return. -/
theorem c1_generate_gate (sel : Selection)
    (h : sel.Confidence < confidenceThreshold
      ∨ ValidateSelectionCompatibility sel ≠ []) :
    refusedBeforeResolution (generateFilesGate (some sel))
    ∧ ∀ r, generateFilesGate (some sel) ≠ .resolution r := by
  have hrefused : refusedBeforeResolution (generateFilesGate (some sel)) := by
    simp only [generateFilesGate]
    by_cases hpid : sel.ProfileID.isEmpty
    · rw [if_pos hpid]
      trivial
    · rw [if_neg hpid]
      by_cases hconf : sel.Confidence < confidenceThreshold
      · rw [if_pos hconf]
        trivial
      · rw [if_neg hconf]
        rcases h with h | h
        · exact absurd h hconf
        · cases hv : ValidateSelectionCompatibility sel with
          | nil => exact absurd hv h
          | cons issue more => trivial
  refine ⟨hrefused, fun r hr => ?_⟩
  rw [hr] at hrefused
  exact hrefused

/-- Every Selection with an unknown (or empty) ProfileID draws at least
one issue from the validator, so by `c1_generate_gate` it is refused. -/
theorem c1_unknown_profile_issue (sel : Selection)
    (h : validProfile sel.ProfileID = false) :
    ValidateSelectionCompatibility sel ≠ [] := by
  unfold ValidateSelectionCompatibility
  intro hcontra
  rcases List.append_eq_nil.mp hcontra with ⟨h1, _⟩
  rcases List.append_eq_nil.mp h1 with ⟨h2, _⟩
  rcases List.append_eq_nil.mp h2 with ⟨h3, _⟩
  rcases List.append_eq_nil.mp h3 with ⟨h4, _⟩
  rcases List.append_eq_nil.mp h4 with ⟨h5, _⟩
  rcases List.append_eq_nil.mp h5 with ⟨h6, _⟩
  unfold profileIssues at h6
  split at h6
  · cases h6
  · rw [h] at h6
    simp at h6

/-- Selection with high confidence but an unknown profile. -/
def c1DemoSel : Selection :=
  ⟨ chars "cobol-mainframe", [], [], 99 / 100, [] ⟩

/-- Witness for C1: a Selection with an unknown ProfileID is refused
before resolution. -/
theorem c1_generate_gate_witness :
    refusedBeforeResolution (generateFilesGate (some c1DemoSel))
    ∧ ∀ r, generateFilesGate (some c1DemoSel) ≠ .resolution r :=
  c1_generate_gate c1DemoSel
    (Or.inr (c1_unknown_profile_issue c1DemoSel (by decide)))

/-- Witness for the unknown-profile half of C1, at a low-confidence
Selection as well. -/
theorem c1_unknown_profile_issue_witness :
    ValidateSelectionCompatibility c1DemoSel ≠ [] :=
  c1_unknown_profile_issue c1DemoSel (by decide)

/-!
Selection extraction, embedded from `parseSelection` (`engine.go`). The
`encoding/json` unmarshalling step is external library code; it is taken
as an arbitrary function `unmarshal` and the claims are proved for every
such function. The fence cleanup and the normalization mirror the Go code.
-/

/-- Opening brace character (written by code point). -/
def lbrace : Char := Char.ofNat 123

/-- Closing brace character (written by code point). -/
def rbrace : Char := Char.ofNat 125

/-- Model of Go `strings.Index` for a single character. -/
def idxOfChar (c : Char) (s : List Char) : Option Nat :=
  s.findIdx? (fun x => x == c)

/-- Model of Go `strings.LastIndex` for a single character. -/
def lastIdxOfChar (c : Char) (s : List Char) : Option Nat :=
  (s.reverse.findIdx? (fun x => x == c)).map (fun k => s.length - 1 - k)

/-- Fence/prose cleanup of `parseSelection`: trim, strip code fences, and
slice from the first brace to the last one when the slice is non-trivial. -/
def cleanSelectionText (raw : List Char) : List Char :=
  let clean := trimChars raw
  let clean := trimPrefixL (chars "```json") clean
  let clean := trimPrefixL (chars "```") clean
  let clean := trimSuffixL (chars "```") clean
  let clean := trimChars clean
  match idxOfChar lbrace clean with
  | none => clean
  | some i =>
    match lastIdxOfChar rbrace clean with
    | none => clean
    | some j => if i < j then (clean.drop i).take (j + 1 - i) else clean

/-- Addon normalization loop of `parseSelection`: strip an `addon.` prefix,
drop blanks, and drop duplicates keeping the first occurrence. -/
def normalizeAddons : List (List Char) → List (List Char) → List (List Char)
  | [], _ => []
  | addonID :: rest, seen =>
    let id := trimPrefixL (chars "addon.") (trimChars addonID)
    if id.isEmpty || seen.contains id then normalizeAddons rest seen
    else id :: normalizeAddons rest (id :: seen)

/-- Entries the asset normalization loop keeps: non-blank and not shaped
like a profile or addon reference. -/
def assetKeep (id : List Char) : Bool :=
  !id.isEmpty && !(startsWith (chars "profile.") id)
    && !(startsWith (chars "addon.") id)

/-- Asset normalization loop of `parseSelection`: drop blanks, entries
prefixed `profile.` or `addon.`, and duplicates (first occurrence wins). -/
def normalizeAssets : List (List Char) → List (List Char) → List (List Char)
  | [], _ => []
  | assetID :: rest, seen =>
    let id := trimChars assetID
    if id.isEmpty || startsWith (chars "profile.") id
        || startsWith (chars "addon.") id || seen.contains id
    then normalizeAssets rest seen
    else id :: normalizeAssets rest (id :: seen)

/-- Model of `parseSelection`, parameterized by the JSON unmarshalling
function (`none` models a `json.Unmarshal` error, which Go maps to a
descriptive parse error). -/
def parseSelectionWith (unmarshal : List Char → Option Selection)
    (raw : List Char) : Option Selection :=
  match unmarshal (cleanSelectionText raw) with
  | none => none
  | some sel =>
    some { ProfileID := trimPrefixL (chars "profile.") (trimChars sel.ProfileID),
           AddonIDs := normalizeAddons sel.AddonIDs [],
           AssetIDs := normalizeAssets sel.AssetIDs [],
           Confidence := sel.Confidence,
           Rationale := sel.Rationale }

theorem normalizeAddons_cons (a : List Char) (rest seen : List (List Char)) :
    normalizeAddons (a :: rest) seen
      = (let id := trimPrefixL (chars "addon.") (trimChars a);
         if id.isEmpty || seen.contains id then normalizeAddons rest seen
         else id :: normalizeAddons rest (id :: seen)) := rfl

theorem normalizeAssets_cons (a : List Char) (rest seen : List (List Char)) :
    normalizeAssets (a :: rest) seen
      = (let id := trimChars a;
         if id.isEmpty || startsWith (chars "profile.") id
             || startsWith (chars "addon.") id || seen.contains id
         then normalizeAssets rest seen
         else id :: normalizeAssets rest (id :: seen)) := rfl

theorem normalizeAddons_eq (l seen : List (List Char)) :
    normalizeAddons l seen
      = walkFilter (fun id => !id.isEmpty)
          (l.map (fun a => trimPrefixL (chars "addon.") (trimChars a))) seen := by
  induction l generalizing seen with
  | nil => rfl
  | cons a rest ih =>
    rw [normalizeAddons_cons, List.map_cons, walkFilter_cons]
    dsimp only
    cases hid : (trimPrefixL (chars "addon.") (trimChars a)).isEmpty
    · cases hc : seen.contains (trimPrefixL (chars "addon.") (trimChars a))
      · simp [ih]
      · simp [ih]
    · simp [ih]

theorem normalizeAssets_eq (l seen : List (List Char)) :
    normalizeAssets l seen
      = walkFilter assetKeep (l.map trimChars) seen := by
  induction l generalizing seen with
  | nil => rfl
  | cons a rest ih =>
    rw [normalizeAssets_cons, List.map_cons, walkFilter_cons]
    dsimp only
    cases hid : (trimChars a).isEmpty
    · cases hp : startsWith (chars "profile.") (trimChars a)
      · cases hq : startsWith (chars "addon.") (trimChars a)
        · cases hc : seen.contains (trimChars a)
          · simp [ih, assetKeep, hid, hp, hq, hc]
          · simp [ih, assetKeep, hid, hp, hq, hc]
        · simp [ih, assetKeep, hid, hp, hq]
      · simp [ih, assetKeep, hid, hp]
    · simp [ih, assetKeep, hid]

/-- C4. For every unmarshalling function and every raw backend text on
which `parseSelection` succeeds, the returned Selection is the parsed one
with: the leading `profile.` prefix stripped from the trimmed ProfileID;
AddonIDs mapped through `addon.`-prefix stripping, blanks dropped, and
duplicates dropped keeping the first occurrence in order; AssetIDs with
blank, `profile.`-prefixed and `addon.`-prefixed entries dropped and
duplicates dropped the same way — hence both normalized lists are
duplicate-free, and Confidence and Rationale pass through unchanged. -/
theorem c4_parse_selection_normalizes
    (unmarshal : List Char → Option Selection) (raw : List Char)
    (sel : Selection) (h : parseSelectionWith unmarshal raw = some sel) :
    ∃ sel0, unmarshal (cleanSelectionText raw) = some sel0
      ∧ sel.ProfileID = trimPrefixL (chars "profile.") (trimChars sel0.ProfileID)
      ∧ sel.AddonIDs = dedupKeepFirst
          ((sel0.AddonIDs.map
            (fun a => trimPrefixL (chars "addon.") (trimChars a))).filter
              (fun id => !id.isEmpty))
      ∧ sel.AssetIDs = dedupKeepFirst ((sel0.AssetIDs.map trimChars).filter assetKeep)
      ∧ sel.AddonIDs.Nodup ∧ sel.AssetIDs.Nodup
      ∧ sel.Confidence = sel0.Confidence ∧ sel.Rationale = sel0.Rationale := by
  unfold parseSelectionWith at h
  cases hu : unmarshal (cleanSelectionText raw) with
  | none => rw [hu] at h; cases h
  | some sel0 =>
    rw [hu] at h
    have hsel := (Option.some.inj h).symm
    subst hsel
    have haddons : normalizeAddons sel0.AddonIDs []
        = dedupKeepFirst
            ((sel0.AddonIDs.map
              (fun a => trimPrefixL (chars "addon.") (trimChars a))).filter
                (fun id => !id.isEmpty)) := by
      rw [normalizeAddons_eq, walkFilter_no_seen]
    have hassets : normalizeAssets sel0.AssetIDs []
        = dedupKeepFirst ((sel0.AssetIDs.map trimChars).filter assetKeep) := by
      rw [normalizeAssets_eq, walkFilter_no_seen]
    refine ⟨sel0, rfl, rfl, haddons, hassets, ?_, ?_, rfl, rfl⟩
    · dsimp only
      rw [haddons]
      exact dedupKeepFirst_nodup _
    · dsimp only
      rw [hassets]
      exact dedupKeepFirst_nodup _

/-- Parsed-but-unnormalized Selection used by the C4 witness, carrying the
exact addon list of the spec example plus a stray profile reference among
the assets. -/
def c4RawSel : Selection :=
  ⟨ chars "profile.typescript-nextjs",
    [chars "addon.data-intensive", chars "addon.data-intensive",
     chars "frontend-craft"],
    [chars "profile.typescript-nextjs", chars "asset.lint.strict"],
    88 / 100, chars "react" ⟩

/-- Unmarshalling stub returning `c4RawSel` for any text. -/
def c4Unmarshal : List Char → Option Selection := fun _ => some c4RawSel

/-- Normalized Selection produced at the C4 witness input. -/
def c4NormSel : Selection :=
  ⟨ chars "typescript-nextjs",
    [chars "data-intensive", chars "frontend-craft"],
    [chars "asset.lint.strict"], 88 / 100, chars "react" ⟩

/-- Witness for C4: the spec example addon list normalizes to exactly
`data-intensive`, `frontend-craft` in order, and the normalization
equations hold at this concrete input. -/
theorem c4_parse_selection_normalizes_witness :
    parseSelectionWith c4Unmarshal (chars "ignored") = some c4NormSel
    ∧ (∃ sel0, c4Unmarshal (cleanSelectionText (chars "ignored")) = some sel0
      ∧ c4NormSel.ProfileID
          = trimPrefixL (chars "profile.") (trimChars sel0.ProfileID)
      ∧ c4NormSel.AddonIDs = dedupKeepFirst
          ((sel0.AddonIDs.map
            (fun a => trimPrefixL (chars "addon.") (trimChars a))).filter
              (fun id => !id.isEmpty))
      ∧ c4NormSel.AssetIDs
          = dedupKeepFirst ((sel0.AssetIDs.map trimChars).filter assetKeep)
      ∧ c4NormSel.AddonIDs.Nodup ∧ c4NormSel.AssetIDs.Nodup
      ∧ c4NormSel.Confidence = sel0.Confidence
      ∧ c4NormSel.Rationale = sel0.Rationale) :=
  ⟨rfl, c4_parse_selection_normalizes c4Unmarshal (chars "ignored") c4NormSel rfl⟩

/-!
File-block parser, embedded from `parseFileOutput` (`engine.go`).
-/

structure FileOutput where
  Path : List Char
  Content : List Char
  deriving DecidableEq

/-- Start marker carrying the path. -/
def startMark : List Char := chars "===FILE: "

/-- Delimiter closing the path on the start-marker line. -/
def pathDelim : List Char := chars "==="

/-- End marker closing a block. -/
def endMark : List Char := chars "===END_FILE==="

/-! Properties of `indexOfSub` (the `strings.Index` model). -/

theorem indexOfSub_some_pref {pat l : List Char} {i : Nat}
    (h : indexOfSub pat l = some i) : pat <+: l.drop i := by
  induction l generalizing i with
  | nil =>
    unfold indexOfSub at h
    split at h
    · next hp =>
      cases h
      simpa using hp
    · cases h
  | cons c rest ih =>
    unfold indexOfSub at h
    split at h
    · next hp =>
      cases h
      simpa using hp
    · rcases Option.map_eq_some'.mp h with ⟨i2, hi2, hplus⟩
      subst hplus
      rw [List.drop_succ_cons]
      exact ih hi2

theorem indexOfSub_some_min {pat l : List Char} {i : Nat}
    (h : indexOfSub pat l = some i) : ∀ j, j < i → ¬ pat <+: l.drop j := by
  induction l generalizing i with
  | nil =>
    unfold indexOfSub at h
    split at h
    · cases h
      intro j hj
      cases hj
    · cases h
  | cons c rest ih =>
    unfold indexOfSub at h
    split at h
    · cases h
      intro j hj
      cases hj
    · next hp =>
      rcases Option.map_eq_some'.mp h with ⟨i2, hi2, hplus⟩
      subst hplus
      intro j hj
      cases j with
      | zero =>
        intro hcontra
        exact hp (by simpa using hcontra)
      | succ j2 =>
        rw [List.drop_succ_cons]
        exact ih hi2 j2 (by omega)

theorem indexOfSub_of {pat l : List Char} {i : Nat}
    (h1 : pat <+: l.drop i) (h2 : ∀ j, j < i → ¬ pat <+: l.drop j) :
    indexOfSub pat l = some i := by
  induction l generalizing i with
  | nil =>
    have hi : i = 0 := by
      by_contra hne
      exact h2 0 (by omega) (by simpa using h1)
    subst hi
    unfold indexOfSub
    rw [if_pos (by simpa using h1)]
  | cons c rest ih =>
    cases hp : pat.isPrefixOf (c :: rest)
    · have hi : i ≠ 0 := by
        intro hz
        subst hz
        rw [List.drop_zero] at h1
        rw [(List.isPrefixOf_iff_prefix).mpr h1] at hp
        cases hp
      rcases Nat.exists_eq_succ_of_ne_zero hi with ⟨i2, hi2⟩
      subst hi2
      unfold indexOfSub
      rw [if_neg (by rw [hp]; decide)]
      rw [ih (by simpa using h1) (fun j hj => by
        have := h2 (j + 1) (by omega)
        simpa using this)]
      rfl
    · have hi : i = 0 := by
        by_contra hne
        exact h2 0 (by omega)
          (by simpa using (List.isPrefixOf_iff_prefix).mp hp)
      subst hi
      unfold indexOfSub
      rw [if_pos hp]

theorem indexOfSub_some_bound {pat l : List Char} {i : Nat}
    (h : indexOfSub pat l = some i) : i + pat.length ≤ l.length := by
  induction l generalizing i with
  | nil =>
    unfold indexOfSub at h
    split at h
    · next hp =>
      cases h
      have : pat = [] := by simpa using hp
      simp [this]
    · cases h
  | cons c rest ih =>
    unfold indexOfSub at h
    split at h
    · next hp =>
      cases h
      have := ((List.isPrefixOf_iff_prefix).mp hp).length_le
      simpa using this
    · rcases Option.map_eq_some'.mp h with ⟨i2, hi2, hplus⟩
      subst hplus
      have := ih hi2
      simp only [List.length_cons]
      omega

theorem indexOfSub_append_stable {pat a b : List Char} {i : Nat}
    (h : indexOfSub pat a = some i) :
    indexOfSub pat (a ++ b) = some i := by
  have hbound := indexOfSub_some_bound h
  refine indexOfSub_of ?_ ?_
  · rw [List.drop_append_of_le_length (by omega)]
    exact (indexOfSub_some_pref h).trans
      ((a.drop i).prefix_append b)
  · intro j hj hcontra
    have hjb : j + pat.length ≤ a.length := by omega
    rw [List.drop_append_of_le_length (by omega)] at hcontra
    refine indexOfSub_some_min h j hj ?_
    have htake := List.prefix_iff_eq_take.mp hcontra
    rw [List.take_append_of_le_length (by
      simp only [List.length_drop]
      omega)] at htake
    rw [htake]
    exact List.take_prefix _ _

/-- Model of `parseFileOutput` (`engine.go`): repeatedly locate a start
marker, the path delimiter, and the matching end marker; any missing
marker stops the parse there without error, keeping the blocks read so
far. -/
def parseFileOutput (remaining : List Char) : List FileOutput :=
  match h1 : indexOfSub startMark remaining with
  | none => []
  | some si =>
    match indexOfSub pathDelim (remaining.drop (si + 9)) with
    | none => []
    | some ep =>
      match indexOfSub endMark (remaining.drop (si + 9 + ep + 3)) with
      | none => []
      | some ei =>
        { Path := trimChars ((remaining.drop (si + 9)).take ep),
          Content := trimChars ((remaining.drop (si + 9 + ep + 3)).take ei) }
          :: parseFileOutput (remaining.drop (si + 9 + ep + 3 + ei + 14))
termination_by remaining.length
decreasing_by
  have hb := indexOfSub_some_bound h1
  have h9 : startMark.length = 9 := rfl
  simp only [List.length_drop]
  omega

theorem parseFileOutput_eq (remaining : List Char) :
    parseFileOutput remaining
      = match indexOfSub startMark remaining with
        | none => []
        | some si =>
          match indexOfSub pathDelim (remaining.drop (si + 9)) with
          | none => []
          | some ep =>
            match indexOfSub endMark (remaining.drop (si + 9 + ep + 3)) with
            | none => []
            | some ei =>
              { Path := trimChars ((remaining.drop (si + 9)).take ep),
                Content := trimChars ((remaining.drop (si + 9 + ep + 3)).take ei) }
                :: parseFileOutput (remaining.drop (si + 9 + ep + 3 + ei + 14)) := by
  rw [parseFileOutput]
  split
  · next h => rw [h]
  · next si h => rw [h]

/-- Newline character, written by code point. -/
def newline : Char := Char.ofNat 10

/-- Rendering of one complete file block. -/
def renderBlock (p c : List Char) : List Char :=
  startMark ++ p ++ pathDelim ++ [newline] ++ c ++ [newline] ++ endMark

/-- Rendering of a sequence of complete blocks, in order. -/
def renderBlocks : List (List Char × List Char) → List Char
  | [] => []
  | b :: rest => renderBlock b.1 b.2 ++ renderBlocks rest

/-- Start-marker line with a path but no end marker after its content. -/
def renderUnterminated (p c : List Char) : List Char :=
  startMark ++ p ++ pathDelim ++ [newline] ++ c

/-- Wellformedness of a block path: the first `===` after the start marker
is the path delimiter itself. -/
def pathDelimOk (p : List Char) : Prop :=
  indexOfSub pathDelim (p ++ pathDelim) = some p.length

/-- Wellformedness of block content: the first end marker after the path
line is the block's own end marker. -/
def contentDelimOk (c : List Char) : Prop :=
  indexOfSub endMark (newline :: c ++ newline :: endMark) = some (c.length + 2)

instance (p : List Char) : Decidable (pathDelimOk p) := by
  unfold pathDelimOk
  infer_instance

instance (c : List Char) : Decidable (contentDelimOk c) := by
  unfold contentDelimOk
  infer_instance

theorem trimChars_pad (c : List Char) :
    trimChars (newline :: (c ++ [newline])) = trimChars c := by
  unfold trimChars
  rw [List.dropWhile_cons, if_pos (by decide), List.dropWhile_append]
  cases h : (c.dropWhile Char.isWhitespace).isEmpty
  · rw [if_neg (by decide)]
    rw [List.reverse_append]
    rw [show [newline].reverse = newline :: [] from rfl]
    rw [List.cons_append, List.dropWhile_cons, if_pos (by decide)]
    simp
  · rw [if_pos (by decide)]
    have hc : c.dropWhile Char.isWhitespace = [] := by
      simpa using h
    rw [hc]
    rw [show List.dropWhile Char.isWhitespace [newline] = [] from by decide]

theorem parseFileOutput_block (p c rest : List Char) (hpOk : pathDelimOk p)
    (hcOk : contentDelimOk c) :
    parseFileOutput (renderBlock p c ++ rest)
      = { Path := trimChars p, Content := trimChars c }
          :: parseFileOutput rest := by
  have hassoc : renderBlock p c ++ rest
      = startMark
          ++ (p ++ (pathDelim ++ (newline :: (c ++ (newline :: (endMark ++ rest)))))) := by
    simp [renderBlock, List.append_assoc]
  have hsi : indexOfSub startMark
      (startMark ++ (p ++ (pathDelim ++ (newline :: (c ++ (newline :: (endMark ++ rest)))))))
      = some 0 :=
    indexOfSub_of (by rw [List.drop_zero]; exact List.prefix_append _ _)
      (fun j hj => absurd hj (Nat.not_lt_zero j))
  have hdrop9 : (startMark
      ++ (p ++ (pathDelim ++ (newline :: (c ++ (newline :: (endMark ++ rest))))))).drop (0 + 9)
      = p ++ (pathDelim ++ (newline :: (c ++ (newline :: (endMark ++ rest))))) :=
    List.drop_left' rfl
  have hep : indexOfSub pathDelim
      (p ++ (pathDelim ++ (newline :: (c ++ (newline :: (endMark ++ rest))))))
      = some p.length := by
    have hst := indexOfSub_append_stable
      (b := newline :: (c ++ (newline :: (endMark ++ rest)))) hpOk
    simpa [List.append_assoc] using hst
  have hpath : (p ++ (pathDelim ++ (newline :: (c ++ (newline :: (endMark ++ rest)))))).take p.length
      = p :=
    List.take_left' rfl
  have hdropCs : (startMark
      ++ (p ++ (pathDelim ++ (newline :: (c ++ (newline :: (endMark ++ rest))))))).drop
        (0 + 9 + p.length + 3)
      = newline :: (c ++ (newline :: (endMark ++ rest))) := by
    rw [show startMark
        ++ (p ++ (pathDelim ++ (newline :: (c ++ (newline :: (endMark ++ rest))))))
        = (startMark ++ p ++ pathDelim)
            ++ (newline :: (c ++ (newline :: (endMark ++ rest)))) from by
      simp [List.append_assoc]]
    refine List.drop_left' ?_
    simp only [List.length_append]
    rw [show startMark.length = 9 from rfl, show pathDelim.length = 3 from rfl]
  have hei : indexOfSub endMark (newline :: (c ++ (newline :: (endMark ++ rest))))
      = some (c.length + 2) := by
    have hst := indexOfSub_append_stable (b := rest) hcOk
    simpa [List.append_assoc] using hst
  have hcontent : (newline :: (c ++ (newline :: (endMark ++ rest)))).take (c.length + 2)
      = newline :: (c ++ [newline]) := by
    rw [show newline :: (c ++ (newline :: (endMark ++ rest)))
        = (newline :: (c ++ [newline])) ++ (endMark ++ rest) from by
      simp [List.append_assoc]]
    refine List.take_left' ?_
    simp
  have hrest : (startMark
      ++ (p ++ (pathDelim ++ (newline :: (c ++ (newline :: (endMark ++ rest))))))).drop
        (0 + 9 + p.length + 3 + (c.length + 2) + 14)
      = rest := by
    rw [show startMark
        ++ (p ++ (pathDelim ++ (newline :: (c ++ (newline :: (endMark ++ rest))))))
        = (startMark ++ p ++ pathDelim ++ (newline :: (c ++ [newline])) ++ endMark)
            ++ rest from by simp [List.append_assoc]]
    refine List.drop_left' ?_
    simp only [List.length_append, List.length_cons]
    rw [show startMark.length = 9 from rfl, show pathDelim.length = 3 from rfl,
      show endMark.length = 14 from rfl]
    simp
  rw [parseFileOutput_eq, hassoc]
  simp only [hsi, hdrop9, hep, hdropCs, hei, hpath, hcontent, hrest,
    trimChars_pad]

theorem parseFileOutput_nil : parseFileOutput [] = [] := by
  rw [parseFileOutput_eq]
  rfl

theorem parseFileOutput_render_aux (bs : List (List Char × List Char))
    (suffix : List Char)
    (hbs : ∀ b ∈ bs, pathDelimOk b.1 ∧ trimChars b.1 = b.1 ∧ contentDelimOk b.2) :
    parseFileOutput (renderBlocks bs ++ suffix)
      = bs.map (fun b => { Path := b.1, Content := trimChars b.2 })
          ++ parseFileOutput suffix := by
  induction bs with
  | nil => simp [renderBlocks]
  | cons b rest ih =>
    have hb := hbs b (by simp)
    rw [show renderBlocks (b :: rest) = renderBlock b.1 b.2 ++ renderBlocks rest
      from rfl]
    rw [List.append_assoc, parseFileOutput_block _ _ _ hb.1 hb.2.2, hb.2.1,
      ih (fun b2 hb2 => hbs b2 (by simp [hb2])), List.map_cons,
      List.cons_append]

theorem parseFileOutput_unterminated (p c : List Char) (hpOk : pathDelimOk p)
    (hnoend : indexOfSub endMark (newline :: c) = none) :
    parseFileOutput (renderUnterminated p c) = [] := by
  have hassoc : renderUnterminated p c
      = startMark ++ (p ++ (pathDelim ++ (newline :: c))) := by
    simp [renderUnterminated, List.append_assoc]
  have hsi : indexOfSub startMark (startMark ++ (p ++ (pathDelim ++ (newline :: c))))
      = some 0 :=
    indexOfSub_of (by rw [List.drop_zero]; exact List.prefix_append _ _)
      (fun j hj => absurd hj (Nat.not_lt_zero j))
  have hdrop9 : (startMark ++ (p ++ (pathDelim ++ (newline :: c)))).drop (0 + 9)
      = p ++ (pathDelim ++ (newline :: c)) :=
    List.drop_left' rfl
  have hep : indexOfSub pathDelim (p ++ (pathDelim ++ (newline :: c)))
      = some p.length := by
    have hst := indexOfSub_append_stable (b := newline :: c) hpOk
    simpa [List.append_assoc] using hst
  have hdropCs : (startMark ++ (p ++ (pathDelim ++ (newline :: c)))).drop
        (0 + 9 + p.length + 3)
      = newline :: c := by
    rw [show startMark ++ (p ++ (pathDelim ++ (newline :: c)))
        = (startMark ++ p ++ pathDelim) ++ (newline :: c) from by
      simp [List.append_assoc]]
    refine List.drop_left' ?_
    simp only [List.length_append]
    rw [show startMark.length = 9 from rfl, show pathDelim.length = 3 from rfl]
  rw [hassoc, parseFileOutput_eq]
  simp only [hsi, hdrop9, hep, hdropCs, hnoend]

/-- C7. For rendered input, `parseFileOutput` returns one FileOutput per
complete well-formed block, in source order, with the path taken exactly
from the start marker and the content trimmed of surrounding whitespace;
input with no start marker yields an empty list; and a trailing block with
no end marker is silently dropped together with everything after it,
without error. -/
theorem c7_parse_file_output (bs : List (List Char × List Char))
    (p c s : List Char)
    (hbs : ∀ b ∈ bs, pathDelimOk b.1 ∧ trimChars b.1 = b.1 ∧ contentDelimOk b.2)
    (hpOk : pathDelimOk p)
    (hnoend : indexOfSub endMark (newline :: c) = none)
    (hnostart : indexOfSub startMark s = none) :
    parseFileOutput (renderBlocks bs)
        = bs.map (fun b => { Path := b.1, Content := trimChars b.2 })
    ∧ parseFileOutput (renderBlocks bs ++ renderUnterminated p c)
        = bs.map (fun b => { Path := b.1, Content := trimChars b.2 })
    ∧ parseFileOutput s = [] := by
  refine ⟨?_, ?_, ?_⟩
  · have h := parseFileOutput_render_aux bs [] hbs
    rw [List.append_nil, parseFileOutput_nil, List.append_nil] at h
    exact h
  · rw [parseFileOutput_render_aux bs (renderUnterminated p c) hbs,
      parseFileOutput_unterminated p c hpOk hnoend, List.append_nil]
  · rw [parseFileOutput_eq, hnostart]

/-- Blocks of the C7 witness, mirroring the repository test input. -/
def c7DemoBlocks : List (List Char × List Char) :=
  [ (chars ".github/copilot-instructions.md",
     chars "# Project Standards\n\nSome content here."),
    (chars "AGENTS.md", chars "# Agent Rules\n\nMore content.") ]

/-- Witness for C7 at concrete blocks, an unterminated tail, and markerless
prose. -/
theorem c7_parse_file_output_witness :
    parseFileOutput (renderBlocks c7DemoBlocks)
        = c7DemoBlocks.map (fun b => { Path := b.1, Content := trimChars b.2 })
    ∧ parseFileOutput (renderBlocks c7DemoBlocks
          ++ renderUnterminated (chars "dropped.md") (chars "no end marker"))
        = c7DemoBlocks.map (fun b => { Path := b.1, Content := trimChars b.2 })
    ∧ parseFileOutput (chars "No file blocks here at all.") = [] :=
  c7_parse_file_output c7DemoBlocks (chars "dropped.md")
    (chars "no end marker") (chars "No file blocks here at all.")
    (by decide) (by decide) (by decide) (by decide)

/-!
OpenAI provider, embedded from `OpenAIProvider.Send` (`openai.go`). The
HTTP boundary is modelled by an environment assigning each attempt number
its outcome: a transport failure, a body-read failure, or a response with
a status code and (for success statuses) the decoded body; a decode
failure is `none`. `time.Sleep` is recorded as the list of backoff
durations (in seconds) in order.
-/

structure ResponseContentItem where
  Ty : List Char
  Text : List Char

structure ResponseOutputItem where
  Content : List ResponseContentItem

structure ResponsesAPIResponse where
  ID : List Char
  Output : List ResponseOutputItem
  OutputText : List Char

/-- Model of `responsesAPIResponse.text()`: the trimmed `output_text` when
non-empty, otherwise the non-empty trimmed content texts joined by
newlines, trimmed. -/
def respText (r : ResponsesAPIResponse) : List Char :=
  if (trimChars r.OutputText).isEmpty then
    trimChars (r.Output.foldl (fun sb o =>
      o.Content.foldl (fun sb c =>
        let t := trimChars c.Text
        if t.isEmpty then sb
        else if sb.isEmpty then sb ++ t
        else sb ++ newline :: t) sb) [])
  else trimChars r.OutputText

inductive AttemptOutcome where
  /-- `httpClient.Do` failed. -/
  | transportError : AttemptOutcome
  /-- `io.ReadAll` on the body failed. -/
  | readBodyError : AttemptOutcome
  /-- An HTTP response; `decoded` is `none` when `json.Unmarshal` fails. -/
  | response (status : Nat) (decoded : Option ResponsesAPIResponse) :
      AttemptOutcome

inductive SendError where
  | httpError : SendError
  | readError : SendError
  | apiStatusError (status : Nat) : SendError
  | decodeError : SendError
  | emptyResponse : SendError
  | rateLimited : SendError
  deriving DecidableEq

/-- Trace of one `Send` call: its result, the provider cursor afterwards,
the number of HTTP attempts made, and the backoff sleeps performed. -/
structure SendTrace where
  result : Except SendError (List Char)
  cursor : List Char
  attemptsUsed : Nat
  sleeps : List Nat

/-- Retry loop of `Send` (`for attempt := 1; attempt <= 3; attempt++`),
structurally recursive on the remaining attempts. -/
def sendGo (env : Nat → AttemptOutcome) (cursor : List Char) :
    Nat → Nat → SendTrace
  | _, 0 => ⟨.error .rateLimited, cursor, 0, []⟩
  | attempt, fuel + 1 =>
    match env attempt with
    | .transportError => ⟨.error .httpError, cursor, 1, []⟩
    | .readBodyError => ⟨.error .readError, cursor, 1, []⟩
    | .response status decoded =>
      if status == 429 then
        let rest := sendGo env cursor (attempt + 1) fuel
        ⟨rest.result, rest.cursor, rest.attemptsUsed + 1,
          attempt * 2 :: rest.sleeps⟩
      else if status < 200 || 300 ≤ status then
        ⟨.error (.apiStatusError status), cursor, 1, []⟩
      else
        match decoded with
        | none => ⟨.error .decodeError, cursor, 1, []⟩
        | some out =>
          if (respText out).isEmpty then ⟨.error .emptyResponse, cursor, 1, []⟩
          else ⟨.ok (respText out), out.ID, 1, []⟩

/-- Model of `OpenAIProvider.Send`: up to three attempts starting from the
current cursor. -/
def Send (env : Nat → AttemptOutcome) (cursor : List Char) : SendTrace :=
  sendGo env cursor 1 3

/-- Whether an attempt outcome is an HTTP 429 rate-limit response. -/
def is429 : AttemptOutcome → Bool
  | .response status _ => status == 429
  | _ => false

/-- Terminal trace of a non-429 attempt outcome. -/
def terminalTrace (a : AttemptOutcome) (cursor : List Char) : SendTrace :=
  match a with
  | .transportError => ⟨.error .httpError, cursor, 1, []⟩
  | .readBodyError => ⟨.error .readError, cursor, 1, []⟩
  | .response status decoded =>
    if status < 200 || 300 ≤ status then
      ⟨.error (.apiStatusError status), cursor, 1, []⟩
    else
      match decoded with
      | none => ⟨.error .decodeError, cursor, 1, []⟩
      | some out =>
        if (respText out).isEmpty then ⟨.error .emptyResponse, cursor, 1, []⟩
        else ⟨.ok (respText out), out.ID, 1, []⟩

/-- Retry wrapper: one 429 attempt followed by the rest of the loop. -/
def retryWrap (attempt : Nat) (t : SendTrace) : SendTrace :=
  ⟨t.result, t.cursor, t.attemptsUsed + 1, attempt * 2 :: t.sleeps⟩

theorem sendGo_step (env : Nat → AttemptOutcome) (cursor : List Char)
    (attempt fuel : Nat) :
    sendGo env cursor attempt (fuel + 1)
      = match env attempt with
        | .transportError => ⟨.error .httpError, cursor, 1, []⟩
        | .readBodyError => ⟨.error .readError, cursor, 1, []⟩
        | .response status decoded =>
          if status == 429 then
            retryWrap attempt (sendGo env cursor (attempt + 1) fuel)
          else terminalTrace (.response status decoded) cursor := by
  simp only [sendGo, retryWrap, terminalTrace]

theorem sendGo_non429 {env : Nat → AttemptOutcome} {attempt : Nat}
    (cursor : List Char) (fuel : Nat) (h : is429 (env attempt) = false) :
    sendGo env cursor attempt (fuel + 1) = terminalTrace (env attempt) cursor := by
  rw [sendGo_step]
  cases ha : env attempt with
  | transportError => rfl
  | readBodyError => rfl
  | response status d =>
    rw [ha] at h
    simp only [is429] at h
    dsimp only
    rw [if_neg (by rw [h]; decide)]

theorem sendGo_429 {env : Nat → AttemptOutcome} {attempt : Nat}
    {d : Option ResponsesAPIResponse} (cursor : List Char) (fuel : Nat)
    (ha : env attempt = .response 429 d) :
    sendGo env cursor attempt (fuel + 1)
      = retryWrap attempt (sendGo env cursor (attempt + 1) fuel) := by
  rw [sendGo_step, ha]
  dsimp only
  rw [if_pos (by decide)]

theorem is429_true {a : AttemptOutcome} (h : is429 a = true) :
    ∃ d, a = .response 429 d := by
  cases a with
  | transportError => cases h
  | readBodyError => cases h
  | response status d =>
    simp only [is429] at h
    have : status = 429 := by simpa using h
    exact ⟨d, by rw [this]⟩

theorem terminalTrace_attempts (a : AttemptOutcome) (cursor : List Char) :
    (terminalTrace a cursor).attemptsUsed = 1 := by
  cases a with
  | transportError => rfl
  | readBodyError => rfl
  | response status d =>
    cases d with
    | none =>
      simp only [terminalTrace]
      split
      · rfl
      · rfl
    | some out =>
      simp only [terminalTrace]
      split
      · rfl
      · split
        · rfl
        · rfl

theorem terminalTrace_sleeps (a : AttemptOutcome) (cursor : List Char) :
    (terminalTrace a cursor).sleeps = [] := by
  cases a with
  | transportError => rfl
  | readBodyError => rfl
  | response status d =>
    cases d with
    | none =>
      simp only [terminalTrace]
      split
      · rfl
      · rfl
    | some out =>
      simp only [terminalTrace]
      split
      · rfl
      · split
        · rfl
        · rfl

theorem terminalTrace_ne_rateLimited (a : AttemptOutcome) (cursor : List Char) :
    (terminalTrace a cursor).result ≠ Except.error SendError.rateLimited := by
  cases a with
  | transportError =>
    intro h
    exact SendError.noConfusion (Except.error.inj h)
  | readBodyError =>
    intro h
    exact SendError.noConfusion (Except.error.inj h)
  | response status d =>
    cases d with
    | none =>
      simp only [terminalTrace]
      split
      · intro h
        exact SendError.noConfusion (Except.error.inj h)
      · intro h
        exact SendError.noConfusion (Except.error.inj h)
    | some out =>
      simp only [terminalTrace]
      split
      · intro h
        exact SendError.noConfusion (Except.error.inj h)
      · split
        · intro h
          exact SendError.noConfusion (Except.error.inj h)
        · intro h
          exact Except.noConfusion h

theorem terminalTrace_error_cursor (a : AttemptOutcome) (cursor : List Char)
    (e : SendError) (h : (terminalTrace a cursor).result = .error e) :
    (terminalTrace a cursor).cursor = cursor := by
  cases a with
  | transportError => rfl
  | readBodyError => rfl
  | response status d =>
    cases d with
    | none =>
      simp only [terminalTrace]
      split
      · rfl
      · rfl
    | some out =>
      simp only [terminalTrace] at h ⊢
      split
      · rfl
      · split
        · rfl
        · next h1 h2 =>
          rw [if_neg h1, if_neg h2] at h
          exact absurd h (fun hc => Except.noConfusion hc)

theorem terminalTrace_ok (a : AttemptOutcome) (cursor : List Char)
    (txt : List Char) (h : (terminalTrace a cursor).result = .ok txt) :
    ∃ s out, a = .response s (some out)
      ∧ (terminalTrace a cursor).cursor = out.ID ∧ txt = respText out := by
  cases a with
  | transportError => exact absurd h (fun hc => Except.noConfusion hc)
  | readBodyError => exact absurd h (fun hc => Except.noConfusion hc)
  | response status d =>
    cases d with
    | none =>
      simp only [terminalTrace] at h
      split at h
      · exact absurd h (fun hc => Except.noConfusion hc)
      · exact absurd h (fun hc => Except.noConfusion hc)
    | some out =>
      simp only [terminalTrace] at h ⊢
      split at h
      · exact absurd h (fun hc => Except.noConfusion hc)
      · next h1 =>
        split at h
        · exact absurd h (fun hc => Except.noConfusion hc)
        · next h2 =>
          refine ⟨status, out, rfl, ?_, (Except.ok.inj h).symm⟩
          rw [if_neg h1, if_neg h2]

theorem terminalTrace_status (s : Nat) (d : Option ResponsesAPIResponse)
    (cursor : List Char) (hbad : s < 200 ∨ 300 ≤ s) :
    terminalTrace (.response s d) cursor
      = ⟨.error (.apiStatusError s), cursor, 1, []⟩ := by
  simp only [terminalTrace]
  rw [if_pos (by rcases hbad with h | h <;> simp [h])]

theorem terminalTrace_empty (s : Nat) (out : ResponsesAPIResponse)
    (cursor : List Char) (h200 : 200 ≤ s) (h300 : s < 300)
    (hempty : respText out = []) :
    terminalTrace (.response s (some out)) cursor
      = ⟨.error .emptyResponse, cursor, 1, []⟩ := by
  simp only [terminalTrace]
  rw [if_neg (by simp only [Bool.or_eq_true, decide_eq_true_eq]; omega)]
  rw [if_pos (by rw [hempty]; rfl)]

theorem status_of_is429 {a : AttemptOutcome} {s : Nat}
    {d : Option ResponsesAPIResponse} (h : is429 a = true)
    (ha : a = .response s d) : s = 429 := by
  subst ha
  simpa [is429] using h

theorem send_leaf1 {env : Nat → AttemptOutcome} (cursor : List Char)
    (h1 : is429 (env 1) = false) :
    Send env cursor = terminalTrace (env 1) cursor :=
  sendGo_non429 cursor 2 h1

theorem send_leaf2 {env : Nat → AttemptOutcome} (cursor : List Char)
    {d1 : Option ResponsesAPIResponse} (hd1 : env 1 = .response 429 d1)
    (h2 : is429 (env 2) = false) :
    Send env cursor = retryWrap 1 (terminalTrace (env 2) cursor) := by
  have e1 : Send env cursor = retryWrap 1 (sendGo env cursor 2 2) :=
    sendGo_429 cursor 2 hd1
  have e2 : sendGo env cursor 2 2 = terminalTrace (env 2) cursor :=
    sendGo_non429 cursor 1 h2
  rw [e1, e2]

theorem send_leaf3 {env : Nat → AttemptOutcome} (cursor : List Char)
    {d1 d2 : Option ResponsesAPIResponse} (hd1 : env 1 = .response 429 d1)
    (hd2 : env 2 = .response 429 d2) (h3 : is429 (env 3) = false) :
    Send env cursor = retryWrap 1 (retryWrap 2 (terminalTrace (env 3) cursor)) := by
  have e1 : Send env cursor = retryWrap 1 (sendGo env cursor 2 2) :=
    sendGo_429 cursor 2 hd1
  have e2 : sendGo env cursor 2 2 = retryWrap 2 (sendGo env cursor 3 1) :=
    sendGo_429 cursor 1 hd2
  have e3 : sendGo env cursor 3 1 = terminalTrace (env 3) cursor :=
    sendGo_non429 cursor 0 h3
  rw [e1, e2, e3]

theorem send_leaf4 {env : Nat → AttemptOutcome} (cursor : List Char)
    {d1 d2 d3 : Option ResponsesAPIResponse} (hd1 : env 1 = .response 429 d1)
    (hd2 : env 2 = .response 429 d2) (hd3 : env 3 = .response 429 d3) :
    Send env cursor = ⟨.error .rateLimited, cursor, 3, [2, 4, 6]⟩ := by
  have e1 : Send env cursor = retryWrap 1 (sendGo env cursor 2 2) :=
    sendGo_429 cursor 2 hd1
  have e2 : sendGo env cursor 2 2 = retryWrap 2 (sendGo env cursor 3 1) :=
    sendGo_429 cursor 1 hd2
  have e3 : sendGo env cursor 3 1 = retryWrap 3 (sendGo env cursor 4 0) :=
    sendGo_429 cursor 0 hd3
  rw [e1, e2, e3]
  rfl

/-- C8. `Send` makes at most three HTTP attempts; only an HTTP 429 triggers
another attempt (with backoff growing linearly in the attempt number);
three consecutive 429s exhaust the retries into a rate-limit error; any
other non-2xx status ends the call with a status error at its first
occurrence; and a 2xx response whose decoded body yields no usable text
ends the call with an explicit empty-response error. -/
theorem c8_send_retry_policy (env : Nat → AttemptOutcome) (cursor : List Char) :
    (1 ≤ (Send env cursor).attemptsUsed ∧ (Send env cursor).attemptsUsed ≤ 3)
    ∧ (∀ j, 1 ≤ j → j < (Send env cursor).attemptsUsed → is429 (env j) = true)
    ∧ ((Send env cursor).result = .error .rateLimited
        ↔ is429 (env 1) = true ∧ is429 (env 2) = true ∧ is429 (env 3) = true)
    ∧ (Send env cursor).sleeps
        = (List.range (Send env cursor).sleeps.length).map (fun i => 2 * (i + 1))
    ∧ (∀ s d, env 1 = .response s d → s ≠ 429 → s < 200 ∨ 300 ≤ s →
        (Send env cursor).result = .error (.apiStatusError s)
          ∧ (Send env cursor).attemptsUsed = 1)
    ∧ (∀ s d, is429 (env 1) = true → env 2 = .response s d → s ≠ 429 →
        s < 200 ∨ 300 ≤ s →
        (Send env cursor).result = .error (.apiStatusError s)
          ∧ (Send env cursor).attemptsUsed = 2)
    ∧ (∀ s d, is429 (env 1) = true → is429 (env 2) = true →
        env 3 = .response s d → s ≠ 429 → s < 200 ∨ 300 ≤ s →
        (Send env cursor).result = .error (.apiStatusError s)
          ∧ (Send env cursor).attemptsUsed = 3)
    ∧ (∀ s out, env 1 = .response s (some out) → 200 ≤ s → s < 300 →
        respText out = [] → (Send env cursor).result = .error .emptyResponse)
    ∧ (∀ s out, is429 (env 1) = true → env 2 = .response s (some out) →
        200 ≤ s → s < 300 → respText out = [] →
        (Send env cursor).result = .error .emptyResponse)
    ∧ (∀ s out, is429 (env 1) = true → is429 (env 2) = true →
        env 3 = .response s (some out) → 200 ≤ s → s < 300 →
        respText out = [] → (Send env cursor).result = .error .emptyResponse) := by
  cases h1 : is429 (env 1)
  · have hS := send_leaf1 cursor h1
    rw [hS]
    refine ⟨?_, ?_, ?_, ?_, ?_, ?_, ?_, ?_, ?_, ?_⟩
    · rw [terminalTrace_attempts]
      omega
    · intro j hj1 hj2
      rw [terminalTrace_attempts] at hj2
      omega
    · constructor
      · intro h
        exact absurd h (terminalTrace_ne_rateLimited _ _)
      · rintro ⟨ha, -, -⟩
        exact Bool.noConfusion ha
    · rw [terminalTrace_sleeps]
      rfl
    · intro s d hd hne hbad
      rw [hd, terminalTrace_status s d cursor hbad]
      exact ⟨rfl, rfl⟩
    · intro s d ha
      exact Bool.noConfusion ha
    · intro s d ha
      exact Bool.noConfusion ha
    · intro s out hd h200 h300 hempty
      rw [hd, terminalTrace_empty s out cursor h200 h300 hempty]
    · intro s out ha
      exact Bool.noConfusion ha
    · intro s out ha
      exact Bool.noConfusion ha
  · obtain ⟨d1, hd1⟩ := is429_true h1
    cases h2 : is429 (env 2)
    · have hS := send_leaf2 cursor hd1 h2
      rw [hS]
      refine ⟨?_, ?_, ?_, ?_, ?_, ?_, ?_, ?_, ?_, ?_⟩
      · simp only [retryWrap]
        rw [terminalTrace_attempts]
        omega
      · intro j hj1 hj2
        simp only [retryWrap] at hj2
        rw [terminalTrace_attempts] at hj2
        have : j = 1 := by omega
        rw [this]
        exact h1
      · constructor
        · intro h
          simp only [retryWrap] at h
          exact absurd h (terminalTrace_ne_rateLimited _ _)
        · rintro ⟨-, hb, -⟩
          exact Bool.noConfusion hb
      · simp only [retryWrap]
        rw [terminalTrace_sleeps]
        rfl
      · intro s d hd hne hbad
        have := status_of_is429 h1 hd
        exact absurd this hne
      · intro s d h1x hd hne hbad
        simp only [retryWrap]
        rw [hd, terminalTrace_status s d cursor hbad]
        exact ⟨rfl, rfl⟩
      · intro s d h1x h2x hd hne hbad
        exact Bool.noConfusion h2x
      · intro s out hd h200 h300 hempty
        have := status_of_is429 h1 hd
        omega
      · intro s out h1x hd h200 h300 hempty
        simp only [retryWrap]
        rw [hd, terminalTrace_empty s out cursor h200 h300 hempty]
      · intro s out h1x h2x hd h200 h300 hempty
        exact Bool.noConfusion h2x
    · obtain ⟨d2, hd2⟩ := is429_true h2
      cases h3 : is429 (env 3)
      · have hS := send_leaf3 cursor hd1 hd2 h3
        rw [hS]
        refine ⟨?_, ?_, ?_, ?_, ?_, ?_, ?_, ?_, ?_, ?_⟩
        · simp only [retryWrap]
          rw [terminalTrace_attempts]
          omega
        · intro j hj1 hj2
          simp only [retryWrap] at hj2
          rw [terminalTrace_attempts] at hj2
          have : j = 1 ∨ j = 2 := by omega
          rcases this with h | h
          · rw [h]
            exact h1
          · rw [h]
            exact h2
        · constructor
          · intro h
            simp only [retryWrap] at h
            exact absurd h (terminalTrace_ne_rateLimited _ _)
          · rintro ⟨-, -, hc⟩
            exact Bool.noConfusion hc
        · simp only [retryWrap]
          rw [terminalTrace_sleeps]
          rfl
        · intro s d hd hne hbad
          exact absurd (status_of_is429 h1 hd) hne
        · intro s d h1x hd hne hbad
          exact absurd (status_of_is429 h2 hd) hne
        · intro s d h1x h2x hd hne hbad
          simp only [retryWrap]
          rw [hd, terminalTrace_status s d cursor hbad]
          exact ⟨rfl, rfl⟩
        · intro s out hd h200 h300 hempty
          have := status_of_is429 h1 hd
          omega
        · intro s out h1x hd h200 h300 hempty
          have := status_of_is429 h2 hd
          omega
        · intro s out h1x h2x hd h200 h300 hempty
          simp only [retryWrap]
          rw [hd, terminalTrace_empty s out cursor h200 h300 hempty]
      · obtain ⟨d3, hd3⟩ := is429_true h3
        have hS := send_leaf4 cursor hd1 hd2 hd3
        rw [hS]
        refine ⟨?_, ?_, ?_, ?_, ?_, ?_, ?_, ?_, ?_, ?_⟩
        · exact ⟨show (1 : Nat) ≤ 3 by decide, show (3 : Nat) ≤ 3 by decide⟩
        · intro j hj1 hj2
          have : j = 1 ∨ j = 2 := by
            dsimp only at hj2
            omega
          rcases this with h | h
          · rw [h]; exact h1
          · rw [h]; exact h2
        · exact ⟨fun _ => ⟨rfl, rfl, rfl⟩, fun _ => rfl⟩
        · rfl
        · intro s d hd hne hbad
          exact absurd (status_of_is429 h1 hd) hne
        · intro s d h1x hd hne hbad
          exact absurd (status_of_is429 h2 hd) hne
        · intro s d h1x h2x hd hne hbad
          exact absurd (status_of_is429 h3 hd) hne
        · intro s out hd h200 h300 hempty
          have := status_of_is429 h1 hd
          omega
        · intro s out h1x hd h200 h300 hempty
          have := status_of_is429 h2 hd
          omega
        · intro s out h1x h2x hd h200 h300 hempty
          have := status_of_is429 h3 hd
          omega

/-- C9. `Send` mutates the provider cursor only on success: every error
return leaves the cursor unchanged, and every successful return sets it to
the ID of the response that produced the reply text. -/
theorem c9_cursor_on_success_only (env : Nat → AttemptOutcome)
    (cursor : List Char) :
    (∀ e, (Send env cursor).result = .error e
      → (Send env cursor).cursor = cursor)
    ∧ (∀ txt, (Send env cursor).result = .ok txt →
        ∃ s out, env (Send env cursor).attemptsUsed = .response s (some out)
          ∧ (Send env cursor).cursor = out.ID ∧ txt = respText out) := by
  cases h1 : is429 (env 1)
  · have hS := send_leaf1 cursor h1
    rw [hS]
    constructor
    · intro e he
      exact terminalTrace_error_cursor _ _ e he
    · intro txt ht
      rw [terminalTrace_attempts]
      exact terminalTrace_ok _ _ txt ht
  · obtain ⟨d1, hd1⟩ := is429_true h1
    cases h2 : is429 (env 2)
    · have hS := send_leaf2 cursor hd1 h2
      rw [hS]
      constructor
      · intro e he
        simp only [retryWrap] at he ⊢
        exact terminalTrace_error_cursor _ _ e he
      · intro txt ht
        simp only [retryWrap] at ht ⊢
        rw [terminalTrace_attempts]
        exact terminalTrace_ok _ _ txt ht
    · obtain ⟨d2, hd2⟩ := is429_true h2
      cases h3 : is429 (env 3)
      · have hS := send_leaf3 cursor hd1 hd2 h3
        rw [hS]
        constructor
        · intro e he
          simp only [retryWrap] at he ⊢
          exact terminalTrace_error_cursor _ _ e he
        · intro txt ht
          simp only [retryWrap] at ht ⊢
          rw [terminalTrace_attempts]
          exact terminalTrace_ok _ _ txt ht
      · obtain ⟨d3, hd3⟩ := is429_true h3
        have hS := send_leaf4 cursor hd1 hd2 hd3
        rw [hS]
        constructor
        · intro e he
          rfl
        · intro txt ht
          exact absurd ht (fun hc => Except.noConfusion hc)

/-- Environment of the C8 witness: a 429 followed by a 500. -/
def c8DemoEnv : Nat → AttemptOutcome := fun n =>
  match n with
  | 1 => .response 429 none
  | 2 => .response 500 none
  | _ => .response 200 none

/-- Witness for C8: after one rate-limit retry, the 500 ends the call on
attempt two with a status error. -/
theorem c8_send_retry_policy_witness :
    (Send c8DemoEnv []).result = .error (.apiStatusError 500)
      ∧ (Send c8DemoEnv []).attemptsUsed = 2 :=
  (c8_send_retry_policy c8DemoEnv []).2.2.2.2.2.1 500 none rfl rfl
    (by decide) (Or.inr (by decide))

/-- Environment answering 429 on every attempt. -/
def c9RateEnv : Nat → AttemptOutcome := fun _ => .response 429 none

/-- Successful response used by the C9 witness. -/
def c9DemoResp : ResponsesAPIResponse := ⟨chars "resp-1", [], chars "hello"⟩

/-- Environment answering success immediately. -/
def c9OkEnv : Nat → AttemptOutcome := fun _ => .response 200 (some c9DemoResp)

/-- Witness for C9: exhausted retries leave the cursor unchanged, and a
successful call moves it to the response ID. -/
theorem c9_cursor_on_success_only_witness :
    (Send c9RateEnv (chars "resp-0")).cursor = chars "resp-0"
    ∧ (∃ s out,
        c9OkEnv (Send c9OkEnv (chars "resp-0")).attemptsUsed
          = .response s (some out)
        ∧ (Send c9OkEnv (chars "resp-0")).cursor = out.ID
        ∧ chars "hello" = respText out) :=
  ⟨(c9_cursor_on_success_only c9RateEnv (chars "resp-0")).1 .rateLimited rfl,
   (c9_cursor_on_success_only c9OkEnv (chars "resp-0")).2 (chars "hello") rfl⟩

/-- Go constant `ReadyToken` (engine.go). -/
def ReadyToken : List Char := chars "READY_TO_GENERATE"

/-- Go `IsReady` (engine.go): uppercase the trimmed reply and look for the
sentinel token, falling back to the spaced phrase. -/
def IsReady (reply : List Char) : Bool :=
  let normalized := (trimChars reply).map Char.toUpper
  if containsSub ReadyToken normalized then true
  else containsSub (chars "READY TO GENERATE") normalized

theorem containsSub_decomp {pat s : List Char} (h : containsSub pat s = true) :
    ∃ pre post, s = pre ++ (pat ++ post) := by
  unfold containsSub at h
  obtain ⟨i, hi⟩ := Option.isSome_iff_exists.mp h
  obtain ⟨post, hpost⟩ := indexOfSub_some_pref hi
  exact ⟨s.take i, post, by rw [hpost, List.take_append_drop]⟩

theorem containsSub_of_decomp (pat pre post : List Char) :
    containsSub pat (pre ++ (pat ++ post)) = true := by
  induction pre with
  | nil =>
    show containsSub pat (pat ++ post) = true
    cases hpp : pat ++ post with
    | nil =>
      obtain ⟨h1, h2⟩ := List.append_eq_nil.mp hpp
      subst h1
      subst h2
      decide
    | cons c rest =>
      have hpref : pat.isPrefixOf (c :: rest) = true := by
        rw [← hpp]
        exact List.isPrefixOf_iff_prefix.mpr (List.prefix_append _ _)
      simp [containsSub, indexOfSub, hpref]
  | cons c pre2 ih =>
    show containsSub pat (c :: (pre2 ++ (pat ++ post))) = true
    by_cases hp : pat.isPrefixOf (c :: (pre2 ++ (pat ++ post))) = true
    · simp [containsSub, indexOfSub, hp]
    · have hn : pat.isPrefixOf (c :: (pre2 ++ (pat ++ post))) = false :=
        Bool.not_eq_true _ ▸ eq_false_of_ne_true hp
      unfold containsSub at ih ⊢
      rw [indexOfSub, if_neg (by simp [hn])]
      simpa using ih

theorem isReady_eq (reply : List Char) :
    IsReady reply
      = (containsSub ReadyToken ((trimChars reply).map Char.toUpper)
         || containsSub (chars "READY TO GENERATE")
              ((trimChars reply).map Char.toUpper)) := by
  unfold IsReady
  by_cases h : containsSub ReadyToken ((trimChars reply).map Char.toUpper) = true
  · simp [h]
  · simp [eq_false_of_ne_true h]

/-- C10. `IsReady` is true exactly when the trimmed, uppercased reply has a
substring occurrence of the sentinel `READY_TO_GENERATE` or of the spaced
phrase `READY TO GENERATE`, and is false on the empty reply. -/
theorem c10_is_ready (reply : List Char) :
    (IsReady reply = true ↔
      (∃ pre post, (trimChars reply).map Char.toUpper
          = pre ++ (chars "READY_TO_GENERATE" ++ post))
      ∨ (∃ pre post, (trimChars reply).map Char.toUpper
          = pre ++ (chars "READY TO GENERATE" ++ post)))
    ∧ IsReady [] = false := by
  refine ⟨?_, by decide⟩
  rw [isReady_eq, Bool.or_eq_true]
  constructor
  · rintro (h | h)
    · exact Or.inl (containsSub_decomp h)
    · exact Or.inr (containsSub_decomp h)
  · rintro (⟨pre, post, hdec⟩ | ⟨pre, post, hdec⟩)
    · exact Or.inl (by rw [hdec]; exact containsSub_of_decomp _ pre post)
    · exact Or.inr (by rw [hdec]; exact containsSub_of_decomp _ pre post)

/-- Witness for C10 on the repository test vectors: the bare lowercase token
fires, a token inside a sentence fires, and the empty reply does not. -/
theorem c10_is_ready_witness :
    IsReady (chars "ready_to_generate") = true
    ∧ IsReady [] = false
    ∧ IsReady (chars "Great choice! READY_TO_GENERATE") = true :=
  ⟨(c10_is_ready (chars "ready_to_generate")).1.mpr
      (Or.inl ⟨[], [], by decide⟩),
   (c10_is_ready ([] : List Char)).2,
   (c10_is_ready (chars "Great choice! READY_TO_GENERATE")).1.mpr
      (Or.inl ⟨chars "GREAT CHOICE! ", [], by decide⟩)⟩

end Launchpad
